import Mathlib

/-!
Verification development for the `yaswine` site-bootstrap pipeline
(`scripts/init-blog.sh` with its embedded Python step, and the older
`init-blog` variant that writes `theme.config.js`).

Strings are modelled as `List Char`.  Python's `str.replace` (which rewrites
all non-overlapping occurrences left to right) is embedded as `replaceL`.
-/

namespace Yaswine

/-- `Pref p s` means the list `p` is a prefix of the list `s`. -/
def Pref (p s : List Char) : Prop := ∃ t, s = p ++ t

/-- `Occurs p s` means `p` occurs as a contiguous sublist of `s`. -/
def Occurs (p s : List Char) : Prop := ∃ a b, s = a ++ p ++ b

theorem isPrefixOf_iff_pref {p s : List Char} : p.isPrefixOf s = true ↔ Pref p s := by
  induction p generalizing s with
  | nil => simp [List.isPrefixOf, Pref]
  | cons c cs ih =>
    cases s with
    | nil =>
      simp [List.isPrefixOf, Pref]
    | cons d ds =>
      simp only [List.isPrefixOf, Bool.and_eq_true, beq_iff_eq, ih, Pref]
      constructor
      · rintro ⟨rfl, t, rfl⟩; exact ⟨t, rfl⟩
      · rintro ⟨t, h⟩
        cases h
        exact ⟨rfl, t, rfl⟩

instance prefDecidable (p s : List Char) : Decidable (Pref p s) :=
  decidable_of_iff (p.isPrefixOf s = true) isPrefixOf_iff_pref

/-- Boolean occurrence test, by scanning. -/
def occursB (p : List Char) : List Char → Bool
  | [] => p.isEmpty
  | c :: cs => p.isPrefixOf (c :: cs) || occursB p cs

theorem occursB_iff {p s : List Char} : occursB p s = true ↔ Occurs p s := by
  induction s with
  | nil =>
    simp only [occursB, List.isEmpty_iff, Occurs]
    constructor
    · rintro rfl; exact ⟨[], [], rfl⟩
    · rintro ⟨a, b, h⟩
      rcases List.append_eq_nil.mp h.symm with ⟨h1, h2⟩
      exact (List.append_eq_nil.mp h1).2
  | cons c cs ih =>
    simp only [occursB, Bool.or_eq_true, isPrefixOf_iff_pref, ih, Occurs, Pref]
    constructor
    · rintro (⟨t, h⟩ | ⟨a, b, h⟩)
      · exact ⟨[], t, by simpa using h⟩
      · exact ⟨c :: a, b, by simp [h]⟩
    · rintro ⟨a, b, h⟩
      cases a with
      | nil => exact Or.inl ⟨b, by simpa using h⟩
      | cons a0 as =>
        right
        rcases h with h
        simp only [List.cons_append, List.cons.injEq] at h
        exact ⟨as, b, h.2⟩

instance occursDecidable (p s : List Char) : Decidable (Occurs p s) :=
  decidable_of_iff (occursB p s = true) occursB_iff

theorem pref_append_self (p t : List Char) : Pref p (p ++ t) := ⟨t, rfl⟩

theorem pref_length {p s : List Char} (h : Pref p s) : p.length ≤ s.length := by
  rcases h with ⟨t, rfl⟩; simp

theorem pref_mem {p s : List Char} (h : Pref p s) {c : Char} (hc : c ∈ p) : c ∈ s := by
  rcases h with ⟨t, rfl⟩; exact List.mem_append_left _ hc

theorem pref_cons_cons {c d : Char} {x y : List Char} (h : Pref (c :: x) (d :: y)) :
    c = d ∧ Pref x y := by
  rcases h with ⟨t, ht⟩
  simp only [List.cons_append, List.cons.injEq] at ht
  exact ⟨ht.1.symm, ⟨t, ht.2⟩⟩

theorem pref_of_pref_append {a b s : List Char} (h : Pref (a ++ b) s) : Pref a s := by
  rcases h with ⟨t, rfl⟩
  exact ⟨b ++ t, by simp⟩

theorem pref_append_cancel {a x y : List Char} (h : Pref (a ++ x) (a ++ y)) : Pref x y := by
  induction a with
  | nil => simpa using h
  | cons c cs ih =>
    rcases pref_cons_cons h with ⟨_, h2⟩
    exact ih h2

/-- A prefix of `a ++ b` is a prefix of `a`, or extends all of `a`. -/
theorem pref_append_or {p a b : List Char} (h : Pref p (a ++ b)) :
    Pref p a ∨ Pref a p := by
  induction a generalizing p with
  | nil => exact Or.inr ⟨p, rfl⟩
  | cons c cs ih =>
    cases p with
    | nil => exact Or.inl ⟨c :: cs, rfl⟩
    | cons d ds =>
      rcases pref_cons_cons h with ⟨rfl, h2⟩
      rcases ih h2 with h3 | h3
      · exact Or.inl (by rcases h3 with ⟨t, rfl⟩; exact ⟨t, rfl⟩)
      · exact Or.inr (by rcases h3 with ⟨t, rfl⟩; exact ⟨t, rfl⟩)

theorem occurs_of_parts {p : List Char} (a b : List Char) : Occurs p (a ++ p ++ b) :=
  ⟨a, b, rfl⟩

theorem occurs_append_left {p s : List Char} (a : List Char) (h : Occurs p s) :
    Occurs p (a ++ s) := by
  rcases h with ⟨x, y, rfl⟩
  exact ⟨a ++ x, y, by simp⟩

theorem occurs_append_right {p s : List Char} (b : List Char) (h : Occurs p s) :
    Occurs p (s ++ b) := by
  rcases h with ⟨x, y, rfl⟩
  exact ⟨x, y ++ b, by simp⟩

theorem occurs_mem {p s : List Char} (h : Occurs p s) {c : Char} (hc : c ∈ p) : c ∈ s := by
  rcases h with ⟨a, b, rfl⟩
  exact List.mem_append_left _ (List.mem_append_right _ hc)

/-- One step of Python `str.replace`, with fuel so that the kernel can
evaluate it.  The fuel is always instantiated with the length of the list. -/
def replaceAux (pat v : List Char) : Nat → List Char → List Char
  | _, [] => []
  | 0, s => s
  | fuel + 1, c :: cs =>
    if pat.isPrefixOf (c :: cs) then v ++ replaceAux pat v fuel (cs.drop (pat.length - 1))
    else c :: replaceAux pat v fuel cs

theorem replaceAux_fuel (pat v : List Char) :
    ∀ f₁ f₂ s, s.length ≤ f₁ → s.length ≤ f₂ →
      replaceAux pat v f₁ s = replaceAux pat v f₂ s := by
  intro f₁
  induction f₁ with
  | zero =>
    intro f₂ s h₁ _
    cases s with
    | nil => cases f₂ <;> rfl
    | cons c cs => simp at h₁
  | succ f ih =>
    intro f₂ s h₁ h₂
    cases s with
    | nil => cases f₂ <;> rfl
    | cons c cs =>
      cases f₂ with
      | zero => simp at h₂
      | succ g =>
        simp only [replaceAux]
        have hd : (cs.drop (pat.length - 1)).length ≤ cs.length := by
          simp
        have hc : cs.length ≤ f := Nat.le_of_succ_le_succ h₁
        have hc' : cs.length ≤ g := Nat.le_of_succ_le_succ h₂
        rw [ih g (cs.drop (pat.length - 1)) (le_trans hd hc) (le_trans hd hc'),
          ih g cs hc hc']

/-- Python's `s.replace(pat, v)`: rewrite all non-overlapping occurrences of
`pat` in `s` by `v`, scanning left to right.  (Only ever used with a
nonempty `pat`.) -/
def replaceL (pat v s : List Char) : List Char :=
  replaceAux pat v s.length s

theorem replaceL_nil (pat v : List Char) : replaceL pat v [] = [] := rfl

theorem replaceL_cons (pat v : List Char) (c : Char) (cs : List Char) :
    replaceL pat v (c :: cs) =
      if pat.isPrefixOf (c :: cs) then v ++ replaceL pat v (cs.drop (pat.length - 1))
      else c :: replaceL pat v cs := by
  show replaceAux pat v (cs.length + 1) (c :: cs) = _
  simp only [replaceAux, replaceL]
  have hd : (cs.drop (pat.length - 1)).length ≤ cs.length := by
    simp
  rw [replaceAux_fuel pat v cs.length (cs.drop (pat.length - 1)).length
    (cs.drop (pat.length - 1)) hd le_rfl]

theorem replaceL_cons_pos {pat v : List Char} {c : Char} {cs : List Char}
    (h : pat.isPrefixOf (c :: cs) = true) :
    replaceL pat v (c :: cs) = v ++ replaceL pat v (cs.drop (pat.length - 1)) := by
  rw [replaceL_cons, if_pos h]

theorem replaceL_cons_neg {pat v : List Char} {c : Char} {cs : List Char}
    (h : pat.isPrefixOf (c :: cs) = false) :
    replaceL pat v (c :: cs) = c :: replaceL pat v cs := by
  rw [replaceL_cons, if_neg]
  simp [h]

theorem replaceAux_mem {pat v : List Char} :
    ∀ {f : Nat} {s : List Char} {c : Char}, c ∈ replaceAux pat v f s → c ∈ s ∨ c ∈ v := by
  intro f
  induction f with
  | zero =>
    intro s c h
    cases s with
    | nil => simp [replaceAux] at h
    | cons d ds => exact Or.inl h
  | succ f ih =>
    intro s c h
    cases s with
    | nil => simp [replaceAux] at h
    | cons d ds =>
      simp only [replaceAux] at h
      by_cases hp : pat.isPrefixOf (d :: ds) = true
      · rw [if_pos hp] at h
        rcases List.mem_append.mp h with h1 | h1
        · exact Or.inr h1
        · rcases ih h1 with h2 | h2
          · exact Or.inl (List.mem_cons_of_mem _ (List.mem_of_mem_drop h2))
          · exact Or.inr h2
      · rw [if_neg hp] at h
        rcases List.mem_cons.mp h with rfl | h1
        · exact Or.inl (List.mem_cons_self _ _)
        · rcases ih h1 with h2 | h2
          · exact Or.inl (List.mem_cons_of_mem _ h2)
          · exact Or.inr h2

/-- Characters of a replacement result come from the input or from `v`. -/
theorem replaceL_mem {pat v s : List Char} {c : Char} (h : c ∈ replaceL pat v s) :
    c ∈ s ∨ c ∈ v :=
  replaceAux_mem h

/-- If `pat` does not occur in `s`, replacement is the identity. -/
theorem replaceL_of_not_occurs {pat v : List Char} :
    ∀ {s : List Char}, ¬ Occurs pat s → replaceL pat v s = s := by
  intro s
  induction s with
  | nil => intro _; rfl
  | cons c cs ih =>
    intro h
    rw [replaceL_cons]
    have hp : ¬ pat.isPrefixOf (c :: cs) = true := by
      intro hp
      rcases isPrefixOf_iff_pref.mp hp with ⟨t, ht⟩
      exact h ⟨[], t, by simpa using ht⟩
    rw [if_neg hp, ih]
    intro ⟨a, b, hab⟩
    exact h ⟨c :: a, b, by simp [hab]⟩

/-- Sequential replacement with a list of (pattern, value) pairs, in order —
the substitution pass of the Page Materializer. -/
def substPairs (prs : List (List Char × List Char)) (s : List Char) : List Char :=
  prs.foldl (fun acc pr => replaceL pr.1 pr.2 acc) s

theorem substPairs_of_not_occurs {prs : List (List Char × List Char)} :
    ∀ {s : List Char}, (∀ pr ∈ prs, ¬ Occurs pr.1 s) → substPairs prs s = s := by
  induction prs with
  | nil => intro s _; rfl
  | cons pr rest ih =>
    intro s h
    have h1 : replaceL pr.1 pr.2 s = s :=
      replaceL_of_not_occurs (h pr (List.mem_cons_self _ _))
    show substPairs rest (replaceL pr.1 pr.2 s) = s
    rw [h1]
    exact ih fun q hq => h q (List.mem_cons_of_mem _ hq)

/-! ## Palette Generator (init-blog.sh, topic palette branch)

`TOPIC_LC=$(echo "$TOPIC" | tr '[:upper:]' '[:lower:]')`
`if echo "$TOPIC_LC" | grep -Eq 'wine|vino|vin'; then … else … fi` -/

/-- ASCII lower-casing, as done by `tr '[:upper:]' '[:lower:]'`. -/
def lowerChar (c : Char) : Char :=
  if 'A' ≤ c ∧ c ≤ 'Z' then Char.ofNat (c.toNat + 32) else c

def lowerStr (s : List Char) : List Char := s.map lowerChar

structure Palette where
  bg0 : List Char
  bg1 : List Char
  bg2 : List Char
  accent : List Char
  accentHover : List Char
  rad1 : List Char
  rad2 : List Char
  rad3 : List Char
deriving DecidableEq

/-- Palette of the `wine|vino|vin` branch of init-blog.sh. -/
def winePalette : Palette :=
  { bg0 := "#12070c".toList, bg1 := "#2a0d16".toList, bg2 := "#4f1424".toList
    accent := "#b63a5a".toList, accentHover := "#962f49".toList
    rad1 := "rgba(144,22,56,.45)".toList, rad2 := "rgba(188,88,116,.28)".toList
    rad3 := "rgba(92,16,37,.42)".toList }

/-- Palette of the `else` branch of init-blog.sh. -/
def defaultPalette : Palette :=
  { bg0 := "#0a0514".toList, bg1 := "#1a0a2e".toList, bg2 := "#2d1b4e".toList
    accent := "#8b5cf6".toList, accentHover := "#7c3aed".toList
    rad1 := "rgba(139, 92, 246, 0.40)".toList, rad2 := "rgba(168, 85, 247, 0.30)".toList
    rad3 := "rgba(217, 70, 239, 0.30)".toList }

/-- `grep -Eq 'wine|vino|vin'` on the lower-cased topic. -/
def wineRegexMatch (tlc : List Char) : Bool :=
  occursB "wine".toList tlc || occursB "vino".toList tlc || occursB "vin".toList tlc

/-- The topic → palette function of init-blog.sh. -/
def topicPalette (topic : List Char) : Palette :=
  if wineRegexMatch (lowerStr topic) then winePalette else defaultPalette

/-! ## Site configuration (init-blog.sh CLI / environment) -/

structure Config where
  domain : List Char
  brand : List Char
  topic : List Char
  speed : List Char
  subscribeEmail : List Char
  logoFile : List Char
  heroFile : List Char

/-- `if [[ -z "$SUBSCRIBE_EMAIL" ]]; then SUBSCRIBE_EMAIL="info@${DOMAIN}"; fi`
(the flag value is `none` when `--subscribe-email` is omitted). -/
def effectiveSubscribeEmail (flagValue : Option (List Char)) (domain : List Char) :
    List Char :=
  match flagValue with
  | none => "info@".toList ++ domain
  | some v => if v = [] then "info@".toList ++ domain else v

/-- `__HERO_TITLE__` value: `f"{brand}: practical insights about {topic}"`. -/
def heroTitle (cfg : Config) : List Char :=
  cfg.brand ++ ": practical insights about ".toList ++ cfg.topic

/-- `__HERO_SUBTITLE__` value: `f"Actionable guides and frameworks for {topic}."`. -/
def heroSubtitle (cfg : Config) : List Char :=
  "Actionable guides and frameworks for ".toList ++ cfg.topic ++ ".".toList

/-- The `repl` dictionary of init-blog.sh, in insertion (= iteration) order. -/
def replPairs (cfg : Config) (pal : Palette) : List (List Char × List Char) :=
  [ ("__BRAND__".toList, cfg.brand),
    ("__DOMAIN__".toList, cfg.domain),
    ("__LOGO_FILE__".toList, cfg.logoFile),
    ("__HERO_FILE__".toList, cfg.heroFile),
    ("__BG0__".toList, pal.bg0),
    ("__BG1__".toList, pal.bg1),
    ("__BG2__".toList, pal.bg2),
    ("__ACCENT__".toList, pal.accent),
    ("__ACCENT_HOVER__".toList, pal.accentHover),
    ("__RAD1__".toList, pal.rad1),
    ("__RAD2__".toList, pal.rad2),
    ("__RAD3__".toList, pal.rad3),
    ("__ANIM_SPEED__".toList, cfg.speed),
    ("__HERO_TITLE__".toList, heroTitle cfg),
    ("__HERO_SUBTITLE__".toList, heroSubtitle cfg),
    ("__SUBSCRIBE_EMAIL__".toList, effectiveSubscribeEmail (some cfg.subscribeEmail) cfg.domain) ]

/-- The 16 placeholder tokens, in substitution order. -/
def tokens16 : List (List Char) :=
  [ "__BRAND__".toList, "__DOMAIN__".toList, "__LOGO_FILE__".toList,
    "__HERO_FILE__".toList, "__BG0__".toList, "__BG1__".toList, "__BG2__".toList,
    "__ACCENT__".toList, "__ACCENT_HOVER__".toList, "__RAD1__".toList,
    "__RAD2__".toList, "__RAD3__".toList, "__ANIM_SPEED__".toList,
    "__HERO_TITLE__".toList, "__HERO_SUBTITLE__".toList, "__SUBSCRIBE_EMAIL__".toList ]

theorem replPairs_fst (cfg : Config) (pal : Palette) :
    (replPairs cfg pal).map Prod.fst = tokens16 := rfl

/-- The per-file substitution pass of init-blog.sh: the 16 token
replacements followed by the two hard-coded legacy-domain replacements. -/
def substFile (cfg : Config) (s : List Char) : List Char :=
  replaceL "myugc.studio".toList cfg.domain
    (replaceL "web.myugc.studio".toList cfg.domain
      (substPairs (replPairs cfg (topicPalette cfg.topic)) s))

/-! ## Token hygiene: when does the substitution pass remove every token?

A shell template is modelled as an alternation of literal chunks and
placeholder tokens.  Under mild hygiene conditions (literals are free of
underscores, literals standing between two tokens are nonempty and contain
a character that cannot appear inside a token, replacement values are free
of underscores) the sequential replacement pass eliminates every token. -/

/-- Characters that may appear inside a placeholder token. -/
def tokChar (c : Char) : Prop := ('A' ≤ c ∧ c ≤ 'Z') ∨ ('0' ≤ c ∧ c ≤ '9') ∨ c = '_'

instance tokCharDecidable : DecidablePred tokChar := fun c => by
  unfold tokChar; infer_instance

/-- A shell template: literal text alternating with placeholder tokens. -/
inductive Shell where
  | last (l : List Char)
  | cons (l : List Char) (t : List Char) (rest : Shell)

/-- The character stream of a shell. -/
def flatten : Shell → List Char
  | .last l => l
  | .cons l t r => l ++ (t ++ flatten r)

/-- Hygiene condition on the literal that follows a token: nonempty, and
containing at least one character that cannot occur inside a token. -/
def headOK : Shell → Prop
  | .last _ => True
  | .cons l _ _ => l ≠ [] ∧ ∃ c ∈ l, ¬ tokChar c

/-- Hygienic shell: literals contain no underscore, tokens are among the 16
placeholders, and each literal standing between two tokens satisfies
`headOK`. -/
def ShellOK : Shell → Prop
  | .last l => '_' ∉ l
  | .cons l t r => '_' ∉ l ∧ t ∈ tokens16 ∧ headOK r ∧ ShellOK r

instance headOKDecidable : (sh : Shell) → Decidable (headOK sh)
  | .last _ => .isTrue trivial
  | .cons l _ _ => by unfold headOK; infer_instance

instance shellOKDecidable : (sh : Shell) → Decidable (ShellOK sh)
  | .last l => by unfold ShellOK; infer_instance
  | .cons l t r => by
    unfold ShellOK
    have := shellOKDecidable r
    infer_instance

/-- Prepend literal text to a shell. -/
def consLit (a : List Char) : Shell → Shell
  | .last l => .last (a ++ l)
  | .cons l t r => .cons (a ++ l) t r

/-- Replace every occurrence of token `t` in a shell by the literal `v`. -/
def replaceTok (t v : List Char) : Shell → Shell
  | .last l => .last l
  | .cons l u r =>
    if u = t then consLit (l ++ v) (replaceTok t v r) else .cons l u (replaceTok t v r)

theorem flatten_consLit (a : List Char) (sh : Shell) :
    flatten (consLit a sh) = a ++ flatten sh := by
  cases sh <;> simp [consLit, flatten]

/-! ### Decidable facts about the 16 tokens -/

theorem tokens16_take2 : ∀ t ∈ tokens16, t.take 2 = ['_', '_'] := by decide

theorem tokens16_len : ∀ t ∈ tokens16, 5 ≤ t.length := by decide

theorem tokens16_no_cross_pref :
    ∀ t ∈ tokens16, ∀ u ∈ tokens16, t ≠ u → ¬ Pref t u := by decide

theorem tokens16_no_inner_uu :
    ∀ u ∈ tokens16, ∀ i, i < u.length → 0 < i → i + 2 < u.length →
      ¬ Pref ['_', '_'] (u.drop i) := by decide

theorem tokens16_tail2 : ∀ u ∈ tokens16, u.drop (u.length - 2) = ['_', '_'] := by decide

theorem tokens16_tail1 : ∀ u ∈ tokens16, u.drop (u.length - 1) = ['_'] := by decide

theorem tokens16_tokChar : ∀ t ∈ tokens16, ∀ c ∈ t, tokChar c := by decide

theorem tokens16_underscore_tail : ∀ t ∈ tokens16, '_' ∈ t.drop 2 := by decide

theorem tokens16_underscore : ∀ t ∈ tokens16, '_' ∈ t := by decide

theorem shape_of_take2 {t : List Char} (h : t.take 2 = ['_', '_']) :
    ∃ t2, t = '_' :: '_' :: t2 := by
  cases t with
  | nil => simp at h
  | cons a t' =>
    cases t' with
    | nil => simp [List.take] at h
    | cons b t'' =>
      simp only [List.take, List.cons.injEq, List.take_nil] at h
      exact ⟨t'', by simp [h.1, h.2.1]⟩

/-! ### Scanning lemmas -/

theorem drop_append_of_le {i : Nat} :
    ∀ (a b : List Char), i ≤ a.length → (a ++ b).drop i = a.drop i ++ b := by
  induction i with
  | zero => intro a b _; simp
  | succ j ih =>
    intro a b h
    cases a with
    | nil => simp at h
    | cons c cs =>
      simp only [List.cons_append, List.drop_succ_cons]
      exact ih cs b (Nat.le_of_succ_le_succ h)

theorem drop_append_len (a b : List Char) : (a ++ b).drop a.length = b := by
  rw [drop_append_of_le a b le_rfl, List.drop_length, List.nil_append]

/-- Scanning through a block where no match can start. -/
theorem replaceL_block_append {t v : List Char} :
    ∀ (a Y : List Char), (∀ i, i < a.length → ¬ Pref t ((a ++ Y).drop i)) →
      replaceL t v (a ++ Y) = a ++ replaceL t v Y := by
  intro a
  induction a with
  | nil => intro Y _; simp
  | cons c cs ih =>
    intro Y h
    have h0 : ¬ Pref t (c :: (cs ++ Y)) := by
      have := h 0 (by simp)
      simpa using this
    have hb : t.isPrefixOf (c :: (cs ++ Y)) = false := by
      rcases Bool.eq_false_or_eq_true (t.isPrefixOf (c :: (cs ++ Y))) with hb | hb
      · exact absurd (isPrefixOf_iff_pref.mp hb) h0
      · exact hb
    show replaceL t v (c :: (cs ++ Y)) = c :: (cs ++ replaceL t v Y)
    rw [replaceL_cons_neg hb]
    simp only [List.cons.injEq, true_and]
    exact ih Y fun i hi => by
      have := h (i + 1) (by simp only [List.length_cons]; omega)
      simpa using this

/-- Scanning through an underscore-free literal. -/
theorem replaceL_lit_append {t t2 v : List Char} (hsh : t = '_' :: '_' :: t2)
    {l : List Char} (hl : '_' ∉ l) (Y : List Char) :
    replaceL t v (l ++ Y) = l ++ replaceL t v Y := by
  apply replaceL_block_append
  intro i hi hpref
  rw [drop_append_of_le l Y (Nat.le_of_lt hi)] at hpref
  have hne : l.drop i ≠ [] := by
    intro h
    have := List.drop_eq_nil_iff.mp h
    omega
  rcases List.exists_cons_of_ne_nil hne with ⟨d, ds, hds⟩
  rw [hds, hsh] at hpref
  rcases pref_cons_cons hpref with ⟨h1, _⟩
  apply hl
  have hd : d ∈ l.drop i := by rw [hds]; exact List.mem_cons_self _ _
  rw [h1]
  exact List.mem_of_mem_drop hd

/-- Scanning at an occurrence of the pattern itself. -/
theorem replaceL_pat_append {t t2 v : List Char} (hsh : t = '_' :: '_' :: t2)
    (Y : List Char) : replaceL t v (t ++ Y) = v ++ replaceL t v Y := by
  subst hsh
  have htrue : ('_' :: '_' :: t2).isPrefixOf ('_' :: (('_' :: t2) ++ Y)) = true := by
    apply isPrefixOf_iff_pref.mpr
    exact ⟨Y, by simp⟩
  show replaceL ('_' :: '_' :: t2) v ('_' :: (('_' :: t2) ++ Y)) = _
  rw [replaceL_cons_pos htrue]
  congr 1
  have e2 : ('_' :: '_' :: t2).length - 1 = ('_' :: t2).length := by simp
  rw [e2, drop_append_len]

/-! ### No token matches strictly inside another token or across boundaries -/

theorem no_t2_pref_flatten {t t2 : List Char} (ht : t ∈ tokens16)
    (hsh : t = '_' :: '_' :: t2) :
    ∀ (rest : Shell), ShellOK rest → headOK rest → ¬ Pref t2 (flatten rest) := by
  have ht2mem : ∀ c ∈ t2, c ∈ t := by
    intro c hc; rw [hsh]; exact List.mem_cons_of_mem _ (List.mem_cons_of_mem _ hc)
  have hu2 : '_' ∈ t2 := by
    have := tokens16_underscore_tail t ht
    rw [hsh] at this
    simpa using this
  intro rest hOK hH hpref
  cases rest with
  | last l =>
    exact hOK (pref_mem hpref hu2)
  | cons l' w r' =>
    rcases hH with ⟨hne, c0, hc0mem, hc0bad⟩
    rcases hOK with ⟨hl', _, _, _⟩
    rcases pref_append_or hpref with h | h
    · exact hl' (pref_mem h hu2)
    · exact hc0bad (tokens16_tokChar t ht c0 (ht2mem c0 (pref_mem h hc0mem)))

theorem no_match_in_tok {t u : List Char} (ht : t ∈ tokens16) (hu : u ∈ tokens16)
    (hne : t ≠ u) {rest : Shell} (hOK : ShellOK rest) (hH : headOK rest) :
    ∀ i, i < u.length → ¬ Pref t ((u ++ flatten rest).drop i) := by
  rcases shape_of_take2 (tokens16_take2 t ht) with ⟨t2, hsh⟩
  intro i hi hpref
  rcases Nat.eq_zero_or_pos i with rfl | hipos
  · simp only [List.drop_zero] at hpref
    rcases pref_append_or hpref with h | h
    · exact tokens16_no_cross_pref t ht u hu hne h
    · exact tokens16_no_cross_pref u hu t ht (Ne.symm hne) h
  · rw [drop_append_of_le u (flatten rest) (Nat.le_of_lt hi)] at hpref
    have hlen5 := tokens16_len u hu
    rcases Nat.lt_trichotomy (i + 2) u.length with hcase | hcase
    · -- strictly inside the token: no two consecutive underscores there
      have h2 : Pref ['_', '_'] (u.drop i ++ flatten rest) := by
        apply pref_of_pref_append (a := ['_', '_']) (b := t2)
        simpa [hsh] using hpref
      rcases pref_append_or h2 with h3 | h3
      · exact tokens16_no_inner_uu u hu i hi hipos hcase h3
      · have := pref_length h3
        simp only [List.length_drop, List.length_cons, List.length_nil] at this
        omega
    · rcases hcase with hcase | hcase
      · -- i = u.length - 2: the final "__" of u, followed by the rest
        have hdrop : u.drop i = ['_', '_'] := by
          have := tokens16_tail2 u hu
          have hieq : i = u.length - 2 := by omega
          rw [hieq]; exact this
        rw [hdrop, hsh] at hpref
        have hpref2 : Pref t2 (flatten rest) := by
          have s1 := pref_cons_cons (by simpa using hpref)
          exact (pref_cons_cons s1.2).2
        exact no_t2_pref_flatten ht hsh rest hOK hH hpref2
      · -- i = u.length - 1: the final "_" of u, followed by the rest
        have hieq : i = u.length - 1 := by omega
        have hdrop : u.drop i = ['_'] := by
          rw [hieq]; exact tokens16_tail1 u hu
        rw [hdrop, hsh] at hpref
        have hpref2 : Pref ('_' :: t2) (flatten rest) := by
          have s1 := pref_cons_cons (by simpa using hpref)
          exact s1.2
        cases rest with
        | last l =>
          exact hOK (pref_mem hpref2 (List.mem_cons_self _ _))
        | cons l' w r' =>
          rcases hH with ⟨hne', c0, hc0mem, hc0bad⟩
          rcases hOK with ⟨hl', _, _, _⟩
          rcases pref_append_or hpref2 with h | h
          · exact hl' (pref_mem h (List.mem_cons_self _ _))
          · have hc0in : c0 ∈ '_' :: t2 := pref_mem h hc0mem
            rcases List.mem_cons.mp hc0in with rfl | hc0in
            · exact hc0bad (Or.inr (Or.inr rfl))
            · have : c0 ∈ t := by
                rw [hsh]
                exact List.mem_cons_of_mem _ (List.mem_cons_of_mem _ hc0in)
              exact hc0bad (tokens16_tokChar t ht c0 this)

/-! ### The substitution pass acts segment-wise on hygienic shells -/

theorem replaceL_flatten {t v : List Char} (ht : t ∈ tokens16) :
    ∀ sh : Shell, ShellOK sh → replaceL t v (flatten sh) = flatten (replaceTok t v sh) := by
  rcases shape_of_take2 (tokens16_take2 t ht) with ⟨t2, hsh⟩
  intro sh hOK
  induction sh with
  | last l =>
    show replaceL t v l = l
    apply replaceL_of_not_occurs
    intro hocc
    exact hOK (occurs_mem hocc (tokens16_underscore t ht))
  | cons l u r ih =>
    rcases hOK with ⟨hl, hu, hH, hOKr⟩
    show replaceL t v (l ++ (u ++ flatten r)) = flatten (replaceTok t v (.cons l u r))
    rw [replaceL_lit_append hsh hl]
    by_cases heq : u = t
    · subst heq
      rw [replaceL_pat_append hsh, ih hOKr]
      show _ = flatten (if u = u then consLit (l ++ v) (replaceTok u v r) else _)
      rw [if_pos rfl, flatten_consLit]
      simp
    · rw [replaceL_block_append u (flatten r)
        (fun i hi => no_match_in_tok ht hu (fun h => heq h.symm) hOKr hH i hi), ih hOKr]
      show _ = flatten (if u = t then _ else Shell.cons l u (replaceTok t v r))
      rw [if_neg heq]
      rfl

/-! ### Hygiene is preserved by token replacement -/

theorem headOK_consLit {a : List Char} {sh : Shell} (hsh : headOK sh) (hne : a ≠ [])
    (hbad : ∃ c ∈ a, ¬ tokChar c) : headOK (consLit a sh) := by
  cases sh with
  | last l => trivial
  | cons l t r =>
    refine ⟨by simp [hne], ?_⟩
    rcases hbad with ⟨c, hc, hcbad⟩
    exact ⟨c, List.mem_append_left _ hc, hcbad⟩

theorem replaceTok_last (t v l : List Char) : replaceTok t v (.last l) = .last l := rfl

theorem headOK_replaceTok {t v : List Char} :
    ∀ {sh : Shell}, ShellOK sh → headOK sh → headOK (replaceTok t v sh) := by
  intro sh
  induction sh with
  | last l => intro _ _; trivial
  | cons l u r ih =>
    intro hOK hH
    rcases hOK with ⟨_, _, hHr, hOKr⟩
    rcases hH with ⟨hne, c0, hc0, hbad⟩
    show headOK (if u = t then consLit (l ++ v) (replaceTok t v r) else .cons l u (replaceTok t v r))
    by_cases heq : u = t
    · rw [if_pos heq]
      cases hr : replaceTok t v r with
      | last x => trivial
      | cons x w rr =>
        refine ⟨by simp [hne], ?_⟩
        exact ⟨c0, List.mem_append_left _ (List.mem_append_left _ hc0), hbad⟩
    · rw [if_neg heq]
      exact ⟨hne, c0, hc0, hbad⟩

theorem shellOK_consLit {a : List Char} {sh : Shell} (ha : '_' ∉ a) (hOK : ShellOK sh) :
    ShellOK (consLit a sh) := by
  cases sh with
  | last l =>
    intro h
    rcases List.mem_append.mp h with h | h
    · exact ha h
    · exact hOK h
  | cons l t r =>
    rcases hOK with ⟨hl, ht, hH, hOKr⟩
    refine ⟨?_, ht, hH, hOKr⟩
    intro h
    rcases List.mem_append.mp h with h | h
    · exact ha h
    · exact hl h

theorem shellOK_replaceTok {t v : List Char} (hv : '_' ∉ v) :
    ∀ {sh : Shell}, ShellOK sh → ShellOK (replaceTok t v sh) := by
  intro sh
  induction sh with
  | last l => intro h; exact h
  | cons l u r ih =>
    intro hOK
    rcases hOK with ⟨hl, hu, hH, hOKr⟩
    show ShellOK (if u = t then consLit (l ++ v) (replaceTok t v r) else .cons l u (replaceTok t v r))
    by_cases heq : u = t
    · rw [if_pos heq]
      apply shellOK_consLit
      · intro h
        rcases List.mem_append.mp h with h | h
        · exact hl h
        · exact hv h
      · exact ih hOKr
    · rw [if_neg heq]
      exact ⟨hl, hu, headOK_replaceTok hOKr hH, ih hOKr⟩

/-! ### Folding over a pair list, and eliminating all tokens -/

/-- Segment-level version of the substitution pass. -/
def foldShell (prs : List (List Char × List Char)) (sh : Shell) : Shell :=
  prs.foldl (fun acc pr => replaceTok pr.1 pr.2 acc) sh

theorem substPairs_flatten {prs : List (List Char × List Char)}
    (h : ∀ pr ∈ prs, pr.1 ∈ tokens16 ∧ '_' ∉ pr.2) :
    ∀ sh : Shell, ShellOK sh →
      substPairs prs (flatten sh) = flatten (foldShell prs sh) ∧
      ShellOK (foldShell prs sh) := by
  induction prs with
  | nil => intro sh hOK; exact ⟨rfl, hOK⟩
  | cons pr rest ih =>
    intro sh hOK
    have hpr := h pr (List.mem_cons_self _ _)
    have h1 : replaceL pr.1 pr.2 (flatten sh) = flatten (replaceTok pr.1 pr.2 sh) :=
      replaceL_flatten hpr.1 sh hOK
    have h2 : ShellOK (replaceTok pr.1 pr.2 sh) := shellOK_replaceTok hpr.2 hOK
    have ih' := ih (fun q hq => h q (List.mem_cons_of_mem _ hq)) _ h2
    constructor
    · show substPairs rest (replaceL pr.1 pr.2 (flatten sh)) = _
      rw [h1]
      exact ih'.1
    · exact ih'.2

/-- `NoTok t sh`: the token `t` does not appear as a token segment of `sh`. -/
def NoTok (t : List Char) : Shell → Prop
  | .last _ => True
  | .cons _ u r => u ≠ t ∧ NoTok t r

theorem noTok_consLit {t a : List Char} {sh : Shell} (h : NoTok t sh) :
    NoTok t (consLit a sh) := by
  cases sh with
  | last l => trivial
  | cons l u r => exact h

theorem noTok_replaceTok_self {t v : List Char} :
    ∀ sh : Shell, NoTok t (replaceTok t v sh) := by
  intro sh
  induction sh with
  | last l => trivial
  | cons l u r ih =>
    show NoTok t (if u = t then consLit (l ++ v) (replaceTok t v r) else .cons l u (replaceTok t v r))
    by_cases heq : u = t
    · rw [if_pos heq]
      exact noTok_consLit ih
    · rw [if_neg heq]
      exact ⟨heq, ih⟩

theorem noTok_replaceTok_other {t' t v : List Char} :
    ∀ {sh : Shell}, NoTok t' sh → NoTok t' (replaceTok t v sh) := by
  intro sh
  induction sh with
  | last l => intro _; trivial
  | cons l u r ih =>
    intro h
    rcases h with ⟨hne, hr⟩
    show NoTok t' (if u = t then consLit (l ++ v) (replaceTok t v r) else .cons l u (replaceTok t v r))
    by_cases heq : u = t
    · rw [if_pos heq]
      exact noTok_consLit (ih hr)
    · rw [if_neg heq]
      exact ⟨hne, ih hr⟩

theorem noTok_foldShell_of {t : List Char} {prs : List (List Char × List Char)} :
    ∀ {sh : Shell}, NoTok t sh → NoTok t (foldShell prs sh) := by
  induction prs with
  | nil => intro sh h; exact h
  | cons q rest ih =>
    intro sh h
    show NoTok t (foldShell rest (replaceTok q.1 q.2 sh))
    exact ih (noTok_replaceTok_other h)

theorem noTok_foldShell {prs : List (List Char × List Char)} :
    ∀ {sh : Shell}, ∀ pr ∈ prs, NoTok pr.1 (foldShell prs sh) := by
  induction prs with
  | nil => intro sh pr hpr; simp at hpr
  | cons q rest ih =>
    intro sh pr hpr
    rcases List.mem_cons.mp hpr with rfl | hpr
    · show NoTok pr.1 (foldShell rest (replaceTok pr.1 pr.2 sh))
      exact noTok_foldShell_of (noTok_replaceTok_self sh)
    · exact ih pr hpr

theorem allTokensGone {sh : Shell} (hOK : ShellOK sh)
    (h : ∀ t ∈ tokens16, NoTok t sh) : ∃ l, sh = .last l ∧ '_' ∉ l := by
  cases sh with
  | last l => exact ⟨l, rfl, hOK⟩
  | cons l u r =>
    rcases hOK with ⟨_, hu, _, _⟩
    exact absurd rfl (h u hu).1

/-! ### Hygienic configurations -/

/-- All configuration values are free of underscores. -/
def CfgClean (cfg : Config) : Prop :=
  '_' ∉ cfg.domain ∧ '_' ∉ cfg.brand ∧ '_' ∉ cfg.topic ∧ '_' ∉ cfg.speed ∧
  '_' ∉ cfg.subscribeEmail ∧ '_' ∉ cfg.logoFile ∧ '_' ∉ cfg.heroFile

instance cfgCleanDecidable : DecidablePred CfgClean := fun cfg => by
  unfold CfgClean; infer_instance

/-- Both palettes have underscore-free component strings. -/
def PalClean (p : Palette) : Prop :=
  '_' ∉ p.bg0 ∧ '_' ∉ p.bg1 ∧ '_' ∉ p.bg2 ∧ '_' ∉ p.accent ∧ '_' ∉ p.accentHover ∧
  '_' ∉ p.rad1 ∧ '_' ∉ p.rad2 ∧ '_' ∉ p.rad3

instance palCleanDecidable : DecidablePred PalClean := fun p => by
  unfold PalClean; infer_instance

theorem winePalette_clean : PalClean winePalette := by decide

theorem defaultPalette_clean : PalClean defaultPalette := by decide

theorem topicPalette_clean (topic : List Char) : PalClean (topicPalette topic) := by
  unfold topicPalette
  by_cases h : wineRegexMatch (lowerStr topic) = true
  · rw [if_pos h]; exact winePalette_clean
  · rw [if_neg h]; exact defaultPalette_clean

theorem replPairs_ok {cfg : Config} (hc : CfgClean cfg) :
    ∀ pr ∈ replPairs cfg (topicPalette cfg.topic), pr.1 ∈ tokens16 ∧ '_' ∉ pr.2 := by
  obtain ⟨hd, hb, ht, hs, he, hlf, hhf⟩ := hc
  obtain ⟨q0, q1, q2, qa, qah, qr1, qr2, qr3⟩ := topicPalette_clean cfg.topic
  have hlit1 : '_' ∉ ": practical insights about ".toList := by decide
  have hlit2 : '_' ∉ "Actionable guides and frameworks for ".toList := by decide
  have hlit3 : '_' ∉ ".".toList := by decide
  have hlit4 : '_' ∉ "info@".toList := by decide
  have htitle : '_' ∉ heroTitle cfg := by
    intro h
    rcases List.mem_append.mp h with h1 | h1
    · rcases List.mem_append.mp h1 with h2 | h2
      · exact hb h2
      · exact hlit1 h2
    · exact ht h1
  have hsub : '_' ∉ heroSubtitle cfg := by
    intro h
    rcases List.mem_append.mp h with h1 | h1
    · rcases List.mem_append.mp h1 with h2 | h2
      · exact hlit2 h2
      · exact ht h2
    · exact hlit3 h1
  have hmail : '_' ∉ effectiveSubscribeEmail (some cfg.subscribeEmail) cfg.domain := by
    have heq : effectiveSubscribeEmail (some cfg.subscribeEmail) cfg.domain =
        if cfg.subscribeEmail = [] then "info@".toList ++ cfg.domain
        else cfg.subscribeEmail := rfl
    rw [heq]
    by_cases hz : cfg.subscribeEmail = []
    · rw [if_pos hz]
      intro h
      rcases List.mem_append.mp h with h1 | h1
      · exact hlit4 h1
      · exact hd h1
    · rw [if_neg hz]
      exact he
  intro pr hpr
  have h1 : pr.1 ∈ tokens16 := by
    rw [← replPairs_fst cfg (topicPalette cfg.topic)]
    exact List.mem_map.mpr ⟨pr, hpr, rfl⟩
  refine ⟨h1, ?_⟩
  simp only [replPairs, List.mem_cons, List.not_mem_nil, or_false] at hpr
  rcases hpr with rfl | rfl | rfl | rfl | rfl | rfl | rfl | rfl | rfl | rfl | rfl | rfl |
    rfl | rfl | rfl | rfl
  · exact hb
  · exact hd
  · exact hlf
  · exact hhf
  · exact q0
  · exact q1
  · exact q2
  · exact qa
  · exact qah
  · exact qr1
  · exact qr2
  · exact qr3
  · exact hs
  · exact htitle
  · exact hsub
  · exact hmail

set_option maxHeartbeats 1000000 in
/-- Main hygiene theorem: on a hygienic shell with a hygienic configuration
the full substitution pass produces an underscore-free file. -/
theorem substFile_no_underscore {cfg : Config} (hc : CfgClean cfg) {sh : Shell}
    (hsh : ShellOK sh) : '_' ∉ substFile cfg (flatten sh) := by
  have main := substPairs_flatten (replPairs_ok hc) sh hsh
  have gone : ∀ t ∈ tokens16,
      NoTok t (foldShell (replPairs cfg (topicPalette cfg.topic)) sh) := by
    intro t ht
    have hmm : t ∈ (replPairs cfg (topicPalette cfg.topic)).map Prod.fst := by
      rw [replPairs_fst]; exact ht
    rcases List.mem_map.mp hmm with ⟨pr, hpr, hfst⟩
    rw [← hfst]
    exact noTok_foldShell pr hpr
  rcases allTokensGone main.2 gone with ⟨l, hl, hlclean⟩
  have hflat : substPairs (replPairs cfg (topicPalette cfg.topic)) (flatten sh) = l := by
    rw [main.1, hl]
    rfl
  intro hmem
  unfold substFile at hmem
  rw [hflat] at hmem
  have hdom : '_' ∉ cfg.domain := hc.1
  rcases replaceL_mem hmem with h1 | h1
  · rcases replaceL_mem h1 with h2 | h2
    · exact hlclean h2
    · exact hdom h2
  · exact hdom h1

/-- If none of the replacement patterns occurs in a file, the substitution
pass leaves it unchanged. -/
theorem substFile_id {cfg : Config} {s : List Char}
    (h16 : ∀ t ∈ tokens16, ¬ Occurs t s)
    (hw : ¬ Occurs "web.myugc.studio".toList s)
    (hm : ¬ Occurs "myugc.studio".toList s) :
    substFile cfg s = s := by
  unfold substFile
  have h1 : substPairs (replPairs cfg (topicPalette cfg.topic)) s = s := by
    apply substPairs_of_not_occurs
    intro pr hpr
    have hmm : pr.1 ∈ tokens16 := by
      rw [← replPairs_fst cfg (topicPalette cfg.topic)]
      exact List.mem_map.mpr ⟨pr, hpr, rfl⟩
    exact h16 pr.1 hmm
  rw [h1, replaceL_of_not_occurs hw, replaceL_of_not_occurs hm]

/-! ## File store -/

/-- File paths, as character lists. -/
abbrev FPath := List Char

/-- Binary file contents (a byte sequence). -/
abbrev Bytes := List Nat

/-- A simple file store; later writes are prepended and shadow earlier ones. -/
abbrev Store (α : Type) := List (FPath × α)

def fsGet {α : Type} (fs : Store α) (p : FPath) : Option α :=
  (fs.find? (fun e => e.1 == p)).map Prod.snd

def fsSet {α : Type} (fs : Store α) (p : FPath) (v : α) : Store α := (p, v) :: fs

theorem fsGet_fsSet {α : Type} (fs : Store α) (p q : FPath) (v : α) :
    fsGet (fsSet fs p v) q = if p = q then some v else fsGet fs q := by
  simp only [fsGet, fsSet, List.find?]
  by_cases h : p = q
  · subst h
    simp
  · have hb : (p == q) = false := beq_eq_false_iff_ne.mpr h
    simp [hb, h]

theorem fsGet_fsSet_self {α : Type} (fs : Store α) (p : FPath) (v : α) :
    fsGet (fsSet fs p v) p = some v := by
  rw [fsGet_fsSet, if_pos rfl]

theorem fsGet_fsSet_other {α : Type} (fs : Store α) {p q : FPath} (v : α) (h : p ≠ q) :
    fsGet (fsSet fs p v) q = fsGet fs q := by
  rw [fsGet_fsSet, if_neg h]

/-! ## Asset Provisioner (lines 93–117 of the Python step) -/

/-- Outcome of one `gen(prompt)` call.  `failure` stands for any raised
exception: no network, a non-2xx HTTP response, a malformed response, or a
response with no image data (`RuntimeError('No image in Gemini response')`). -/
inductive GenOutcome where
  | success (b : Bytes)
  | failure
deriving DecidableEq

/-- One guarded generation attempt: `if key:` / `try: ... except: print warning`. -/
def genStep (key : Bool) (g : GenOutcome) (file : FPath) (okMsg warnMsg : String)
    (fs : Store Bytes) : Store Bytes × List String :=
  if key then
    match g with
    | .success b => (fsSet fs file b, [okMsg])
    | .failure => (fs, [warnMsg])
  else (fs, [])

/-- `if not brandFile.exists() and canonical.exists(): copy canonical → brandFile`. -/
def fallbackStep (bf cf : FPath) (fs : Store Bytes) : Store Bytes :=
  match fsGet fs bf, fsGet fs cf with
  | none, some c => fsSet fs bf c
  | _, _ => fs

/-- `if brandFile.exists(): copy brandFile → canonical`. -/
def canonStep (bf cf : FPath) (fs : Store Bytes) : Store Bytes :=
  match fsGet fs bf with
  | some c => fsSet fs cf c
  | none => fs

/-- Lines 93–117 of the Python step: optional generation guarded by the API
key with a per-asset `try/except` that prints a warning, the fallback copies
from the canonical assets, and the canonicalization copies back. -/
def provisionAssets (key : Bool) (genLogo genHero : GenOutcome)
    (logoFile heroFile : FPath) (imgs : Store Bytes) : Store Bytes × List String :=
  let s1 := genStep key genLogo logoFile "[ok] logo generated"
    "[warn] logo generation failed" imgs
  let s2 := genStep key genHero heroFile "[ok] hero generated"
    "[warn] hero generation failed" s1.1
  let i3 := fallbackStep logoFile "logo.png".toList s2.1
  let i4 := fallbackStep heroFile "hero_ai.jpg".toList i3
  let i5 := canonStep logoFile "logo.png".toList i4
  let i6 := canonStep heroFile "hero_ai.jpg".toList i5
  (i6, s1.2 ++ s2.2)

/-! ## Policy Page Writer (write_policy_pages) -/

/-- The `base_css` f-string, parameterized by the palette values. -/
def baseCss (bg0 bg1 bg2 accent accentHover : List Char) : List Char :=
  "\n:root\x7b--bg-dark:".toList ++ bg0 ++
  ";--bg-gradient:linear-gradient(135deg,".toList ++ bg0 ++ " 0%,".toList ++ bg1 ++
  " 50%,".toList ++ bg2 ++ " 100%);--accent:".toList ++ accent ++
  ";--accent-hover:".toList ++ accentHover ++
  ";--glass-bg:rgba(255,255,255,.035);--glass-border:rgba(255,255,255,.12);--text:#f4edf0;--dim:#cfbec5;\x7d\n".toList ++
  "*\x7bbox-sizing:border-box;margin:0;padding:0;font-family:Inter,system-ui,-apple-system,Segoe UI,sans-serif\x7d\n".toList ++
  "body\x7bbackground:var(--bg-dark);color:var(--text);overflow-x:hidden;line-height:1.7\x7d\n".toList ++
  ".fixed-bg\x7bposition:fixed;inset:0;z-index:-1;background:var(--bg-gradient)\x7d\n".toList ++
  ".container\x7bmax-width:980px;margin:0 auto;padding:0 24px\x7d\n".toList ++
  "nav\x7bpadding:22px 0;position:sticky;top:0;z-index:20;background:rgba(0,0,0,.0)\x7d\n".toList ++
  "nav .row\x7bdisplay:flex;align-items:center;justify-content:space-between;gap:16px\x7d\n".toList ++
  "nav a\x7bcolor:var(--dim);text-decoration:none;font-weight:700;font-size:14px\x7d\n".toList ++
  "nav a:hover\x7bcolor:#fff\x7d\n".toList ++
  ".logo-img\x7bheight:60px;width:auto;object-fit:contain\x7d\n".toList ++
  ".card\x7bmargin:20px auto 42px;background:var(--glass-bg);border:1px solid var(--glass-border);border-radius:22px;padding:26px\x7d\n".toList ++
  "h1\x7bfont-size:34px;line-height:1.1;margin-bottom:10px\x7d\n".toList ++
  "p\x7bcolor:var(--dim);margin:10px 0\x7d\n".toList ++
  "footer\x7bborder-top:1px solid var(--glass-border);padding:34px 0;text-align:center;color:var(--dim);font-size:14px;margin-top:28px\x7d\n".toList ++
  ".btn\x7bdisplay:inline-flex;align-items:center;justify-content:center;padding:12px 18px;border-radius:10px;font-weight:800;text-decoration:none;transition:.2s;background:var(--accent);color:#fff\x7d\n".toList ++
  ".btn:hover\x7bbackground:var(--accent-hover)\x7d\n".toList

/-- The `page(title, body_html)` f-string; the local `logo` is the constant
`'logo.png'`. -/
def pageShell (bg0 bg1 bg2 accent accentHover brand title bodyHtml : List Char) :
    List Char :=
  "<!doctype html>\n<html lang=\"en\"><head>\n<meta charset=\"utf-8\" />\n<meta name=\"viewport\" content=\"width=device-width, initial-scale=1\" />\n<title>".toList ++
  title ++ " | ".toList ++ brand ++
  "</title>\n<meta name=\"robots\" content=\"index,follow\" />\n<link rel=\"icon\" type=\"image/png\" href=\"/logo.png\" />\n<link href=\"https://fonts.googleapis.com/css2?family=Inter:wght@300;400;500;600;700;800&display=swap\" rel=\"stylesheet\" />\n<style>".toList ++
  baseCss bg0 bg1 bg2 accent accentHover ++
  "</style>\n</head>\n<body>\n<div class=\"fixed-bg\"></div>\n<nav><div class=\"container row\"><a href=\"/\"><img class=\"logo-img\" src=\"/logo.png\" alt=\"".toList ++
  brand ++
  " logo\" /></a><div style=\"display:flex;gap:16px\"><a href=\"/\">Home</a><a href=\"/blog/\">Blog</a></div></div></nav>\n<main class=\"container\"><div class=\"card\"><h1>".toList ++
  title ++ "</h1>".toList ++ bodyHtml ++
  "</div></main>\n<footer><p>© 2026 ".toList ++ brand ++
  ". All rights reserved.</p><div style=\"margin-top:12px\"><a href=\"/policy/terms/\">Terms</a> | <a href=\"/policy/privacy/\">Privacy</a> | <a href=\"/policy/refund/\">Refund</a></div></footer>\n</body></html>".toList

def privacyBody (domain : List Char) : List Char :=
  "<p>This policy applies to <b>".toList ++ domain ++
  "</b>.</p><p>We collect only the information you submit via forms (name, email, message) to respond and improve the site experience. We do not sell personal data.</p><p>If you have questions, contact <a class=\"btn\" href=\"".toList ++
  "mailto:info@".toList ++ domain ++ "\">info@".toList ++ domain ++ "</a>.</p>".toList

def termsBody (domain : List Char) : List Char :=
  "<p>By using <b>".toList ++ domain ++
  "</b>, you agree to these terms.</p><p>Content is provided for informational purposes. We may update the site at any time. Your use is at your own risk.</p><p>Contact: <a class=\"btn\" href=\"".toList ++
  "mailto:info@".toList ++ domain ++ "\">info@".toList ++ domain ++ "</a>.</p>".toList

def refundBody (domain : List Char) : List Char :=
  "<p>This site is a content blog. Unless you purchased a separate product/service from us, there is nothing to refund.</p><p>For billing questions, email <a class=\"btn\" href=\"".toList ++
  "mailto:info@".toList ++ domain ++ "\">info@".toList ++ domain ++ "</a>.</p>".toList

def privacyPageContent (cfg : Config) : List Char :=
  let pal := topicPalette cfg.topic
  pageShell pal.bg0 pal.bg1 pal.bg2 pal.accent pal.accentHover cfg.brand
    "Privacy Policy".toList (privacyBody cfg.domain)

def termsPageContent (cfg : Config) : List Char :=
  let pal := topicPalette cfg.topic
  pageShell pal.bg0 pal.bg1 pal.bg2 pal.accent pal.accentHover cfg.brand
    "Terms of Service".toList (termsBody cfg.domain)

def refundPageContent (cfg : Config) : List Char :=
  let pal := topicPalette cfg.topic
  pageShell pal.bg0 pal.bg1 pal.bg2 pal.accent pal.accentHover cfg.brand
    "Refund Policy".toList (refundBody cfg.domain)

/-- `write_policy_pages`: the three pages, in dictionary order. -/
def writePolicyPages (cfg : Config) (pages : Store (List Char)) : Store (List Char) :=
  let p1 := fsSet pages "policy/privacy/index.html".toList (privacyPageContent cfg)
  let p2 := fsSet p1 "policy/terms/index.html".toList (termsPageContent cfg)
  fsSet p2 "policy/refund/index.html".toList (refundPageContent cfg)

/-! ## Bootstrap Orchestrator: the Python step of init-blog.sh -/

def homeShellPath : FPath := "universal_blog_shell.html".toList

def blogShellPath : FPath := "universal_blog_index.html".toList

def blogPagePaths : List FPath :=
  [ "blog/index.html".toList, "ru/blog/index.html".toList, "es/blog/index.html".toList,
    "de/blog/index.html".toList, "fr/blog/index.html".toList ]

/-- The pipeline state: binary assets and HTML pages (the two never share
file names, so they are stored separately). -/
structure St where
  imgs : Store Bytes
  pages : Store (List Char)
deriving DecidableEq

/-- The Python step of init-blog.sh: provision assets; fail fast if a shell
file is missing (the state at abort time is carried in the error); write the
home page and the per-locale blog pages; run the substitution pass over
every HTML file; write the policy pages.  Returns the log of warnings and
either the abort message with the state at that point, or the final state.
(The regex-based `patch_blog_template_palette` step is not modelled.) -/
def runInit (cfg : Config) (key : Bool) (genLogo genHero : GenOutcome) (st : St) :
    List String × Except (String × St) St :=
  let pa := provisionAssets key genLogo genHero cfg.logoFile cfg.heroFile st.imgs
  match fsGet st.pages homeShellPath with
  | none =>
    (pa.2, .error ("Missing universal_blog_shell.html in project root", ⟨pa.1, st.pages⟩))
  | some home =>
    match fsGet st.pages blogShellPath with
    | none =>
      (pa.2, .error ("Missing universal_blog_index.html in project root", ⟨pa.1, st.pages⟩))
    | some blogc =>
      let pages1 := fsSet st.pages "index.html".toList home
      let pages2 := blogPagePaths.foldl (fun acc p => fsSet acc p blogc) pages1
      let pages3 := pages2.map (fun e => (e.1, substFile cfg e.2))
      let pages4 := writePolicyPages cfg pages3
      (pa.2, .ok ⟨pa.1, pages4⟩)

/-! ### File-store lemmas for the provisioner steps -/

theorem fsGet_genStep_other {key : Bool} {g : GenOutcome} {file : FPath}
    {okMsg warnMsg : String} {fs : Store Bytes} {q : FPath} (h : file ≠ q) :
    fsGet (genStep key g file okMsg warnMsg fs).1 q = fsGet fs q := by
  cases key <;> cases g <;> simp [genStep, fsGet_fsSet, h]

theorem fsGet_fallbackStep_other {bf cf : FPath} {fs : Store Bytes} {q : FPath}
    (h : bf ≠ q) :
    fsGet (fallbackStep bf cf fs) q = fsGet fs q := by
  rcases h1 : fsGet fs bf with _ | c
  · rcases h2 : fsGet fs cf with _ | d
    · simp [fallbackStep, h1, h2]
    · simp [fallbackStep, h1, h2, fsGet_fsSet, h]
  · simp [fallbackStep, h1]

theorem fsGet_canonStep_other {bf cf : FPath} {fs : Store Bytes} {q : FPath}
    (h : cf ≠ q) :
    fsGet (canonStep bf cf fs) q = fsGet fs q := by
  rcases h1 : fsGet fs bf with _ | c
  · simp [canonStep, h1]
  · simp [canonStep, h1, fsGet_fsSet, h]

theorem canonStep_eq {bf cf : FPath} {fs : Store Bytes} (hne : bf ≠ cf)
    (hfb : fsGet fs bf = none → fsGet fs cf = none) :
    fsGet (canonStep bf cf fs) bf = fsGet (canonStep bf cf fs) cf := by
  rcases h1 : fsGet fs bf with _ | c
  · simp [canonStep, h1, hfb h1]
  · have hne' : cf ≠ bf := fun h => hne h.symm
    simp [canonStep, h1, fsGet_fsSet, hne']

theorem canonStep_bf_of_some {bf cf : FPath} {fs : Store Bytes} {c : Bytes}
    (hne : cf ≠ bf) (h1 : fsGet fs bf = some c) :
    fsGet (canonStep bf cf fs) bf = some c := by
  simp [canonStep, h1, fsGet_fsSet, hne]

theorem canonStep_cf_of_some {bf cf : FPath} {fs : Store Bytes} {c : Bytes}
    (h1 : fsGet fs bf = some c) :
    fsGet (canonStep bf cf fs) cf = some c := by
  simp [canonStep, h1, fsGet_fsSet]

theorem fallbackStep_post {bf cf : FPath} {fs : Store Bytes} :
    fsGet (fallbackStep bf cf fs) bf = none → fsGet (fallbackStep bf cf fs) cf = none := by
  rcases h1 : fsGet fs bf with _ | c
  · rcases h2 : fsGet fs cf with _ | d
    · intro _
      simp [fallbackStep, h1, h2]
    · intro habs
      rw [fallbackStep, h1, h2] at habs
      simp [fsGet_fsSet] at habs
  · intro habs
    rw [fallbackStep, h1] at habs
    rw [h1] at habs
    cases habs

theorem fallbackStep_isSome {bf cf : FPath} {fs : Store Bytes}
    (h : (fsGet fs bf).isSome = true ∨ (fsGet fs cf).isSome = true) :
    (fsGet (fallbackStep bf cf fs) bf).isSome = true := by
  rcases h1 : fsGet fs bf with _ | c
  · rcases h2 : fsGet fs cf with _ | d
    · rcases h with h | h
      · rw [h1] at h
        cases h
      · rw [h2] at h
        cases h
    · simp [fallbackStep, h1, h2, fsGet_fsSet]
  · simp [fallbackStep, h1]

/-! ## Animation speed (the older init-blog variant, theme.config.js) -/

/-- `cfg["animationSpeedSec"] = max(8, min(60, speed))` from the
`theme.config.js`-writing init script. -/
def animationSpeedSec (speed : Int) : Int := max 8 (min 60 speed)

/-! ## Claims -/

/-- Claim C1, counterexample: the topic `vino` is assigned the wine-specific
palette although its lower-casing does not contain the substring `wine`, so
"wine palette iff the topic contains wine" fails. -/
theorem c1_counterexample :
    topicPalette "vino".toList = winePalette ∧
    occursB "wine".toList (lowerStr "vino".toList) = false :=
  ⟨by decide, by decide⟩

/-- Claim C1 (amended): the Palette Generator returns the wine-specific
palette iff the lower-cased topic contains `wine` or `vin` (the branch tests
`grep -Eq 'wine|vino|vin'`, and a `vino` match is also a `vin` match); on no
match it returns the default palette. -/
theorem c1_palette_characterization (topic : List Char) :
    (topicPalette topic = winePalette ↔
      Occurs "wine".toList (lowerStr topic) ∨ Occurs "vin".toList (lowerStr topic)) ∧
    (¬ (Occurs "wine".toList (lowerStr topic) ∨ Occurs "vin".toList (lowerStr topic)) →
      topicPalette topic = defaultPalette) := by
  have hne : winePalette ≠ defaultPalette := by decide
  have hvino : Occurs "vino".toList (lowerStr topic) →
      Occurs "vin".toList (lowerStr topic) := by
    rintro ⟨a, b, hab⟩
    refine ⟨a, 'o' :: b, ?_⟩
    rw [hab]
    have e : "vino".toList = "vin".toList ++ ['o'] := by decide
    rw [e]
    simp [List.append_assoc]
  have hmatch : wineRegexMatch (lowerStr topic) = true ↔
      Occurs "wine".toList (lowerStr topic) ∨ Occurs "vin".toList (lowerStr topic) := by
    unfold wineRegexMatch
    simp only [Bool.or_eq_true, occursB_iff]
    constructor
    · rintro ((h | h) | h)
      · exact Or.inl h
      · exact Or.inr (hvino h)
      · exact Or.inr h
    · rintro (h | h)
      · exact Or.inl (Or.inl h)
      · exact Or.inr h
  constructor
  · unfold topicPalette
    by_cases hm : wineRegexMatch (lowerStr topic) = true
    · rw [if_pos hm]
      exact ⟨fun _ => hmatch.mp hm, fun _ => rfl⟩
    · rw [if_neg hm]
      constructor
      · intro h
        exact absurd h.symm hne
      · intro h
        exact absurd (hmatch.mpr h) hm
  · intro h
    unfold topicPalette
    rw [if_neg]
    intro hm
    exact h (hmatch.mp hm)

/-- Claim C1 witness: a topic with no `wine`/`vin` substring gets the default
palette. -/
theorem c1_witness : topicPalette "cooking".toList = defaultPalette :=
  (c1_palette_characterization "cooking".toList).2 (by decide)

/-- A configuration with `--speed 5`, used to exercise the substitution pass. -/
def cfgSpeed5 : Config :=
  { domain := "example.com".toList, brand := "Acme".toList, topic := "cooking".toList,
    speed := "5".toList, subscribeEmail := "info@example.com".toList,
    logoFile := "logo-acme.png".toList, heroFile := "hero-acme.png".toList }

/-- Claim C2, counterexample: init-blog.sh substitutes the raw CLI speed
string for `__ANIM_SPEED__`, so `--speed 5` writes `5` into the output, not
the claimed clamp to `8`. -/
theorem c2_counterexample :
    substFile cfgSpeed5 "__ANIM_SPEED__".toList = "5".toList ∧
    ("5".toList : List Char) ≠ "8".toList :=
  ⟨by decide, by decide⟩

/-- Claim C2 (amended): the clamp to [8, 60] exists only in the older init
variant, whose `theme.config.js` speed is `max(8, min(60, speed))` — an input
of 5 yields 8, 999 yields 60, and in-range values pass through; init-blog.sh
itself maps `__ANIM_SPEED__` to the raw CLI speed string, unclamped. -/
theorem c2_speed_semantics :
    (∀ n : Int, 8 ≤ animationSpeedSec n ∧ animationSpeedSec n ≤ 60) ∧
    (∀ n : Int, n ≤ 8 → animationSpeedSec n = 8) ∧
    (∀ n : Int, 60 ≤ n → animationSpeedSec n = 60) ∧
    (∀ n : Int, 8 ≤ n → n ≤ 60 → animationSpeedSec n = n) ∧
    (∀ (cfg : Config) (pal : Palette),
      ("__ANIM_SPEED__".toList, cfg.speed) ∈ replPairs cfg pal) := by
  refine ⟨?_, ?_, ?_, ?_, ?_⟩
  · intro n
    unfold animationSpeedSec
    exact ⟨le_max_left _ _, max_le (by norm_num) (min_le_left _ _)⟩
  · intro n h
    unfold animationSpeedSec
    rw [min_eq_right (by omega : n ≤ (60 : Int)), max_eq_left h]
  · intro n h
    unfold animationSpeedSec
    rw [min_eq_left h, max_eq_right (by norm_num : (8 : Int) ≤ 60)]
  · intro n h1 h2
    unfold animationSpeedSec
    rw [min_eq_right h2, max_eq_right h1]
  · intro cfg pal
    simp [replPairs]

/-- Claim C2 witness: the clamp of the older init variant maps 5 to 8 and
999 to 60. -/
theorem c2_witness : animationSpeedSec 5 = 8 ∧ animationSpeedSec 999 = 60 :=
  ⟨c2_speed_semantics.2.1 5 (by norm_num), c2_speed_semantics.2.2.1 999 (by norm_num)⟩

/-- Claim C10: with no `--subscribe-email` flag the effective subscribe email
is `info@<domain>`; a nonempty flag value is used verbatim; and the `repl`
map sends `__SUBSCRIBE_EMAIL__` to exactly this effective value. -/
theorem c10_subscribe_email :
    (∀ domain : List Char,
      effectiveSubscribeEmail none domain = "info@".toList ++ domain) ∧
    (∀ (domain v : List Char), v ≠ [] →
      effectiveSubscribeEmail (some v) domain = v) ∧
    (∀ (cfg : Config) (pal : Palette),
      ("__SUBSCRIBE_EMAIL__".toList,
        effectiveSubscribeEmail (some cfg.subscribeEmail) cfg.domain) ∈
        replPairs cfg pal) := by
  refine ⟨fun _ => rfl, ?_, ?_⟩
  · intro domain v hv
    show (if v = [] then "info@".toList ++ domain else v) = v
    rw [if_neg hv]
  · intro cfg pal
    simp [replPairs]

/-- Claim C10 witness: the default is `info@example.com` for domain
`example.com`, and an explicit address is kept verbatim. -/
theorem c10_witness :
    effectiveSubscribeEmail none "example.com".toList = "info@example.com".toList ∧
    effectiveSubscribeEmail (some "team@acme.io".toList) "example.com".toList =
      "team@acme.io".toList := by
  constructor
  · rw [c10_subscribe_email.1 "example.com".toList]
    decide
  · exact c10_subscribe_email.2.1 "example.com".toList "team@acme.io".toList (by decide)

/-- A benign configuration used as a concrete instance in several witnesses. -/
def cfgAcme : Config :=
  { domain := "example.com".toList, brand := "Acme".toList, topic := "tea".toList,
    speed := "26".toList, subscribeEmail := "info@example.com".toList,
    logoFile := "logo-acme.png".toList, heroFile := "hero-acme.png".toList }

theorem provisionAssets_warn_logo (genHero : GenOutcome) (lf hf : FPath)
    (imgs : Store Bytes) :
    "[warn] logo generation failed" ∈
      (provisionAssets true .failure genHero lf hf imgs).2 := by
  cases genHero <;> simp [provisionAssets, genStep]

theorem provisionAssets_warn_hero (genLogo : GenOutcome) (lf hf : FPath)
    (imgs : Store Bytes) :
    "[warn] hero generation failed" ∈
      (provisionAssets true genLogo .failure lf hf imgs).2 := by
  cases genLogo <;> simp [provisionAssets, genStep]

/-- Claim C5 (amended): asset provisioning never aborts the run — for every
outcome of the external generation calls a run whose shell files are present
reaches the success state — and each failed call under a configured key logs
its warning; but with no credential (`key = false`) the generation block is
skipped silently and nothing at all is logged. -/
theorem c5_provision_never_fatal (cfg : Config) (key : Bool)
    (genLogo genHero : GenOutcome) (st : St)
    (hhome : (fsGet st.pages homeShellPath).isSome = true)
    (hblog : (fsGet st.pages blogShellPath).isSome = true) :
    (∃ st', (runInit cfg key genLogo genHero st).2 = .ok st') ∧
    (key = true → genLogo = .failure →
      "[warn] logo generation failed" ∈ (runInit cfg key genLogo genHero st).1) ∧
    (key = true → genHero = .failure →
      "[warn] hero generation failed" ∈ (runInit cfg key genLogo genHero st).1) ∧
    (key = false → (runInit cfg key genLogo genHero st).1 = []) := by
  rcases hh : fsGet st.pages homeShellPath with _ | home
  · rw [hh] at hhome
    cases hhome
  rcases hb : fsGet st.pages blogShellPath with _ | blogc
  · rw [hb] at hblog
    cases hblog
  have hlog : (runInit cfg key genLogo genHero st).1 =
      (provisionAssets key genLogo genHero cfg.logoFile cfg.heroFile st.imgs).2 := by
    simp [runInit, hh, hb]
  refine ⟨⟨⟨(provisionAssets key genLogo genHero cfg.logoFile cfg.heroFile st.imgs).1,
    writePolicyPages cfg ((blogPagePaths.foldl (fun acc p => fsSet acc p blogc)
      (fsSet st.pages "index.html".toList home)).map
        (fun e => (e.1, substFile cfg e.2)))⟩, ?_⟩, ?_, ?_, ?_⟩
  · simp only [runInit, hh, hb]
  · rintro rfl rfl
    rw [hlog]
    exact provisionAssets_warn_logo genHero cfg.logoFile cfg.heroFile st.imgs
  · rintro rfl rfl
    rw [hlog]
    exact provisionAssets_warn_hero genLogo cfg.logoFile cfg.heroFile st.imgs
  · rintro rfl
    rw [hlog]
    rfl

/-- A state whose page store holds the two shell files. -/
def stShells : St :=
  ⟨[], [(homeShellPath, "<p>__BRAND__</p>".toList),
        (blogShellPath, "<p>__DOMAIN__</p>".toList)]⟩

/-- The success state of a run, if the run succeeded. -/
def okStateOf (r : List String × Except (String × St) St) : Option St :=
  match r.2 with
  | .ok s => some s
  | .error _ => none

/-- Claim C5, counterexample: with no credential the claimed warning is not
logged — the run completes but its log is empty, the `if key:` guard having
skipped the generation block silently. -/
theorem c5_counterexample :
    (runInit cfgAcme false .failure .failure stShells).1 = [] ∧
    (okStateOf (runInit cfgAcme false .failure .failure stShells)).isSome = true :=
  ⟨by decide, by decide⟩

/-- Claim C5 witness: with a key configured and both generation calls
failing, the concrete run completes and logs both warnings. -/
theorem c5_witness :
    (∃ st', (runInit cfgAcme true .failure .failure stShells).2 = .ok st') ∧
    (true = true → GenOutcome.failure = GenOutcome.failure →
      "[warn] logo generation failed" ∈
        (runInit cfgAcme true .failure .failure stShells).1) ∧
    (true = true → GenOutcome.failure = GenOutcome.failure →
      "[warn] hero generation failed" ∈
        (runInit cfgAcme true .failure .failure stShells).1) ∧
    (true = false → (runInit cfgAcme true .failure .failure stShells).1 = []) :=
  c5_provision_never_fatal cfgAcme true .failure .failure stShells (by decide) (by decide)

/-- A state with a canonical logo but no shell files. -/
def stNoShells : St := ⟨[("logo.png".toList, [7, 7])], []⟩

/-- The state carried by an aborted run, if the run aborted. -/
def errorStateOf (r : List String × Except (String × St) St) : Option St :=
  match r.2 with
  | .error (_, s) => some s
  | .ok _ => none

/-- Claim C3, counterexample: with a canonical `logo.png` present and both
shell files missing, the run aborts — but the brand-specific asset copy
`logo-acme.png`, absent initially, has already been written by the time the
error is raised, so output does exist at the abort. -/
theorem c3_counterexample :
    (errorStateOf (runInit cfgAcme false .failure .failure stNoShells)).isSome = true ∧
    (errorStateOf (runInit cfgAcme false .failure .failure stNoShells)).map
      (fun s => fsGet s.imgs "logo-acme.png".toList) = some (some [7, 7]) ∧
    fsGet stNoShells.imgs "logo-acme.png".toList = none :=
  ⟨by decide, by decide, by decide⟩

/-- Claim C3 (amended): a missing shell file aborts the run with the
corresponding message before any page is written — the page store at the
abort is exactly the initial one — but the asset-provisioning file writes
have already taken place by then. -/
theorem c3_fail_fast (cfg : Config) (key : Bool) (genLogo genHero : GenOutcome)
    (st : St)
    (h : fsGet st.pages homeShellPath = none ∨ fsGet st.pages blogShellPath = none) :
    (runInit cfg key genLogo genHero st).2 =
      .error
        ((if fsGet st.pages homeShellPath = none then
            "Missing universal_blog_shell.html in project root"
          else "Missing universal_blog_index.html in project root"),
          ⟨(provisionAssets key genLogo genHero cfg.logoFile cfg.heroFile st.imgs).1,
            st.pages⟩) := by
  rcases hh : fsGet st.pages homeShellPath with _ | home
  · simp [runInit, hh]
  · have hb : fsGet st.pages blogShellPath = none := by
      rcases h with h | h
      · rw [hh] at h
        cases h
      · exact h
    simp [runInit, hh, hb]

/-- Claim C3 witness: the fail-fast theorem applied to the concrete state
with a missing home shell. -/
theorem c3_witness :
    (runInit cfgAcme false .failure .failure stNoShells).2 =
      .error
        ((if fsGet stNoShells.pages homeShellPath = none then
            "Missing universal_blog_shell.html in project root"
          else "Missing universal_blog_index.html in project root"),
          ⟨(provisionAssets false .failure .failure cfgAcme.logoFile cfgAcme.heroFile
              stNoShells.imgs).1, stNoShells.pages⟩) :=
  c3_fail_fast cfgAcme false .failure .failure stNoShells (Or.inl (by decide))

theorem provisionAssets_parts (key : Bool) (gl gh : GenOutcome) (lf hf : FPath)
    (imgs : Store Bytes) :
    (provisionAssets key gl gh lf hf imgs).1 =
      canonStep hf "hero_ai.jpg".toList
        (canonStep lf "logo.png".toList
          (fallbackStep hf "hero_ai.jpg".toList
            (fallbackStep lf "logo.png".toList
              (genStep key gh hf "[ok] hero generated" "[warn] hero generation failed"
                (genStep key gl lf "[ok] logo generated"
                  "[warn] logo generation failed" imgs).1).1))) := rfl

theorem fallbackStep_bf_val {bf cf : FPath} {fs : Store Bytes} {c : Bytes}
    (h : fsGet fs bf = none ∨ fsGet fs bf = some c)
    (hcf : fsGet fs cf = some c) : fsGet (fallbackStep bf cf fs) bf = some c := by
  rcases h with h | h
  · simp [fallbackStep, h, hcf, fsGet_fsSet]
  · simp [fallbackStep, h]

/-- Claim C6, counterexample: on an initially empty file system with no
credential, provisioning creates neither the brand-specific nor the
canonical asset, so "both exist afterwards" fails. -/
theorem c6_counterexample :
    fsGet (provisionAssets false .failure .failure "logo-acme.png".toList
      "hero-acme.png".toList []).1 "logo-acme.png".toList = none ∧
    fsGet (provisionAssets false .failure .failure "logo-acme.png".toList
      "hero-acme.png".toList []).1 "logo.png".toList = none :=
  ⟨by decide, by decide⟩

/-- Claim C6 (amended): with the four asset paths pairwise distinct, after
provisioning the brand-specific file and the canonical file hold equal
contents (both present and byte-identical, or both absent), and the pair is
present whenever a source existed: the brand file or the canonical file
pre-existed, or the generation call succeeded under a configured key. -/
theorem c6_asset_canonicalization (key : Bool) (gl gh : GenOutcome) (lf hf : FPath)
    (imgs : Store Bytes)
    (hd1 : lf ≠ "logo.png".toList) (hd2 : hf ≠ "hero_ai.jpg".toList)
    (hd3 : hf ≠ lf) (hd4 : hf ≠ "logo.png".toList) (hd5 : lf ≠ "hero_ai.jpg".toList) :
    (fsGet (provisionAssets key gl gh lf hf imgs).1 lf =
      fsGet (provisionAssets key gl gh lf hf imgs).1 "logo.png".toList) ∧
    (fsGet (provisionAssets key gl gh lf hf imgs).1 hf =
      fsGet (provisionAssets key gl gh lf hf imgs).1 "hero_ai.jpg".toList) ∧
    ((fsGet imgs lf).isSome = true ∨ (fsGet imgs "logo.png".toList).isSome = true ∨
      (key = true ∧ gl ≠ .failure) →
      (fsGet (provisionAssets key gl gh lf hf imgs).1 lf).isSome = true) ∧
    ((fsGet imgs hf).isSome = true ∨ (fsGet imgs "hero_ai.jpg".toList).isSome = true ∨
      (key = true ∧ gh ≠ .failure) →
      (fsGet (provisionAssets key gl gh lf hf imgs).1 hf).isSome = true) := by
  have hclch : ("logo.png".toList : FPath) ≠ "hero_ai.jpg".toList := by decide
  have hchlf : ("hero_ai.jpg".toList : FPath) ≠ lf := fun e => hd5 e.symm
  have hchcl : ("hero_ai.jpg".toList : FPath) ≠ "logo.png".toList := fun e => hclch e.symm
  have hcllf : ("logo.png".toList : FPath) ≠ lf := fun e => hd1 e.symm
  have hclhf : ("logo.png".toList : FPath) ≠ hf := fun e => hd4 e.symm
  have hchhf : ("hero_ai.jpg".toList : FPath) ≠ hf := fun e => hd2 e.symm
  have hlfhf : lf ≠ hf := fun e => hd3 e.symm
  rw [provisionAssets_parts]
  refine ⟨?_, ?_, ?_, ?_⟩
  · rw [fsGet_canonStep_other hchlf, fsGet_canonStep_other hchcl]
    apply canonStep_eq hd1
    intro h
    rw [fsGet_fallbackStep_other hd3] at h
    rw [fsGet_fallbackStep_other hd4]
    exact fallbackStep_post h
  · apply canonStep_eq hd2
    intro h
    rw [fsGet_canonStep_other hclhf] at h
    rw [fsGet_canonStep_other hclch]
    exact fallbackStep_post h
  · intro h
    rw [fsGet_canonStep_other hchlf, fsGet_canonStep_other hcllf,
      fsGet_fallbackStep_other hd3]
    apply fallbackStep_isSome
    rcases h with h | h | ⟨hk, hg⟩
    · left
      rw [fsGet_genStep_other hd3]
      cases key
      · simpa [genStep] using h
      · cases gl with
        | success b => simp [genStep, fsGet_fsSet]
        | failure => simpa [genStep] using h
    · right
      rw [fsGet_genStep_other hd4, fsGet_genStep_other hd1]
      exact h
    · left
      rw [fsGet_genStep_other hd3]
      subst hk
      cases gl with
      | success b => simp [genStep, fsGet_fsSet]
      | failure => exact absurd rfl hg
  · intro h
    rw [fsGet_canonStep_other hchhf, fsGet_canonStep_other hclhf]
    apply fallbackStep_isSome
    rcases h with h | h | ⟨hk, hg⟩
    · left
      rw [fsGet_fallbackStep_other hlfhf]
      cases key
      · simpa [genStep] using h
      · cases gh with
        | success b => simp [genStep, fsGet_fsSet]
        | failure =>
          rw [show (genStep true GenOutcome.failure hf "[ok] hero generated"
            "[warn] hero generation failed" (genStep true gl lf "[ok] logo generated"
              "[warn] logo generation failed" imgs).1).1 =
            (genStep true gl lf "[ok] logo generated"
              "[warn] logo generation failed" imgs).1 from rfl]
          rw [fsGet_genStep_other hlfhf]
          exact h
    · right
      rw [fsGet_fallbackStep_other hd5, fsGet_genStep_other hd2,
        fsGet_genStep_other hd5]
      exact h
    · left
      rw [fsGet_fallbackStep_other hlfhf]
      subst hk
      cases gh with
      | success b => simp [genStep, fsGet_fsSet]
      | failure => exact absurd rfl hg

/-- Claim C6 witness: the canonicalization theorem applied to a concrete
credential-less run on a store holding only `logo.png`. -/
theorem c6_witness :
    (fsGet (provisionAssets false .failure .failure "logo-acme.png".toList
        "hero-acme.png".toList stNoShells.imgs).1 "logo-acme.png".toList =
      fsGet (provisionAssets false .failure .failure "logo-acme.png".toList
        "hero-acme.png".toList stNoShells.imgs).1 "logo.png".toList) ∧
    (fsGet (provisionAssets false .failure .failure "logo-acme.png".toList
        "hero-acme.png".toList stNoShells.imgs).1 "hero-acme.png".toList =
      fsGet (provisionAssets false .failure .failure "logo-acme.png".toList
        "hero-acme.png".toList stNoShells.imgs).1 "hero_ai.jpg".toList) ∧
    ((fsGet stNoShells.imgs "logo-acme.png".toList).isSome = true ∨
      (fsGet stNoShells.imgs "logo.png".toList).isSome = true ∨
      (false = true ∧ GenOutcome.failure ≠ GenOutcome.failure) →
      (fsGet (provisionAssets false .failure .failure "logo-acme.png".toList
        "hero-acme.png".toList stNoShells.imgs).1 "logo-acme.png".toList).isSome = true) ∧
    ((fsGet stNoShells.imgs "hero-acme.png".toList).isSome = true ∨
      (fsGet stNoShells.imgs "hero_ai.jpg".toList).isSome = true ∨
      (false = true ∧ GenOutcome.failure ≠ GenOutcome.failure) →
      (fsGet (provisionAssets false .failure .failure "logo-acme.png".toList
        "hero-acme.png".toList stNoShells.imgs).1 "hero-acme.png".toList).isSome = true) :=
  c6_asset_canonicalization false .failure .failure "logo-acme.png".toList
    "hero-acme.png".toList stNoShells.imgs (by decide) (by decide) (by decide)
    (by decide) (by decide)

/-- A store with a canonical logo and a conflicting pre-existing
brand-specific logo file. -/
def imgsConflict : Store Bytes :=
  [("logo.png".toList, [0]), ("logo-acme.png".toList, [1])]

/-- Claim C7, counterexample: with no credential but a pre-existing
brand-specific logo file whose bytes differ from `logo.png`, provisioning
overwrites the canonical `logo.png`, so "pre-existing logo.png is left
byte-for-byte unchanged" fails. -/
theorem c7_counterexample :
    fsGet imgsConflict "logo.png".toList = some [0] ∧
    fsGet (provisionAssets false .failure .failure "logo-acme.png".toList
      "hero-acme.png".toList imgsConflict).1 "logo.png".toList = some [1] ∧
    (some ([1] : Bytes) : Option Bytes) ≠ some [0] :=
  ⟨by decide, by decide, by decide⟩

/-- Claim C7 (amended): with no credential, if the brand-specific asset files
are absent or already identical to the canonical ones, a pre-existing
`logo.png` and `hero_ai.jpg` keep their byte contents, and (with the shell
files present) the run does not abort. -/
theorem c7_no_credential_preserves (cfg : Config) (gl gh : GenOutcome) (st : St)
    (c d : Bytes)
    (hd3 : cfg.heroFile ≠ cfg.logoFile) (hd4 : cfg.heroFile ≠ "logo.png".toList)
    (hd5 : cfg.logoFile ≠ "hero_ai.jpg".toList)
    (hcl : fsGet st.imgs "logo.png".toList = some c)
    (hbl : fsGet st.imgs cfg.logoFile = none ∨ fsGet st.imgs cfg.logoFile = some c)
    (hch : fsGet st.imgs "hero_ai.jpg".toList = some d)
    (hbh : fsGet st.imgs cfg.heroFile = none ∨ fsGet st.imgs cfg.heroFile = some d)
    (hhome : (fsGet st.pages homeShellPath).isSome = true)
    (hblog : (fsGet st.pages blogShellPath).isSome = true) :
    fsGet (provisionAssets false gl gh cfg.logoFile cfg.heroFile st.imgs).1
      "logo.png".toList = some c ∧
    fsGet (provisionAssets false gl gh cfg.logoFile cfg.heroFile st.imgs).1
      "hero_ai.jpg".toList = some d ∧
    (okStateOf (runInit cfg false gl gh st)).map
      (fun s => fsGet s.imgs "logo.png".toList) = some (some c) ∧
    (okStateOf (runInit cfg false gl gh st)).map
      (fun s => fsGet s.imgs "hero_ai.jpg".toList) = some (some d) := by
  have hclch : ("logo.png".toList : FPath) ≠ "hero_ai.jpg".toList := by decide
  have hchcl : ("hero_ai.jpg".toList : FPath) ≠ "logo.png".toList := fun e => hclch e.symm
  have hcanon :
      fsGet (provisionAssets false gl gh cfg.logoFile cfg.heroFile st.imgs).1
        "logo.png".toList = some c ∧
      fsGet (provisionAssets false gl gh cfg.logoFile cfg.heroFile st.imgs).1
        "hero_ai.jpg".toList = some d := by
    rw [provisionAssets_parts]
    have hI2 : (genStep false gh cfg.heroFile "[ok] hero generated"
        "[warn] hero generation failed" (genStep false gl cfg.logoFile
          "[ok] logo generated" "[warn] logo generation failed" st.imgs).1).1 =
        st.imgs := rfl
    rw [hI2]
    have hAlf : fsGet (fallbackStep cfg.logoFile "logo.png".toList st.imgs)
        cfg.logoFile = some c := fallbackStep_bf_val hbl hcl
    have hBlf : fsGet (fallbackStep cfg.heroFile "hero_ai.jpg".toList
        (fallbackStep cfg.logoFile "logo.png".toList st.imgs)) cfg.logoFile = some c := by
      rw [fsGet_fallbackStep_other hd3]
      exact hAlf
    have hCcl : fsGet (canonStep cfg.logoFile "logo.png".toList
        (fallbackStep cfg.heroFile "hero_ai.jpg".toList
          (fallbackStep cfg.logoFile "logo.png".toList st.imgs)))
        "logo.png".toList = some c := canonStep_cf_of_some hBlf
    constructor
    · rw [fsGet_canonStep_other hchcl]
      exact hCcl
    · have hAch : fsGet (fallbackStep cfg.logoFile "logo.png".toList st.imgs)
          "hero_ai.jpg".toList = some d := by
        rw [fsGet_fallbackStep_other hd5]
        exact hch
      have hAhf : fsGet (fallbackStep cfg.logoFile "logo.png".toList st.imgs)
          cfg.heroFile = none ∨
          fsGet (fallbackStep cfg.logoFile "logo.png".toList st.imgs)
            cfg.heroFile = some d := by
        rw [fsGet_fallbackStep_other (fun e => hd3 e.symm)]
        exact hbh
      have hBhf : fsGet (fallbackStep cfg.heroFile "hero_ai.jpg".toList
          (fallbackStep cfg.logoFile "logo.png".toList st.imgs)) cfg.heroFile =
          some d := fallbackStep_bf_val hAhf hAch
      have hChf : fsGet (canonStep cfg.logoFile "logo.png".toList
          (fallbackStep cfg.heroFile "hero_ai.jpg".toList
            (fallbackStep cfg.logoFile "logo.png".toList st.imgs)))
          cfg.heroFile = some d := by
        rw [fsGet_canonStep_other (fun e => hd4 e.symm)]
        exact hBhf
      exact canonStep_cf_of_some hChf
  rcases hh : fsGet st.pages homeShellPath with _ | home
  · rw [hh] at hhome
    cases hhome
  rcases hb : fsGet st.pages blogShellPath with _ | blogc
  · rw [hb] at hblog
    cases hblog
  have hok : okStateOf (runInit cfg false gl gh st) =
      some ⟨(provisionAssets false gl gh cfg.logoFile cfg.heroFile st.imgs).1,
        writePolicyPages cfg ((blogPagePaths.foldl (fun acc p => fsSet acc p blogc)
          (fsSet st.pages "index.html".toList home)).map
            (fun e => (e.1, substFile cfg e.2)))⟩ := by
    simp [okStateOf, runInit, hh, hb]
  refine ⟨hcanon.1, hcanon.2, ?_, ?_⟩
  · rw [hok]
    simp only [Option.map_some']
    exact congrArg some hcanon.1
  · rw [hok]
    simp only [Option.map_some']
    exact congrArg some hcanon.2

/-- Claim C7 witness: a concrete credential-less run on a store holding
matching canonical and brand assets keeps both canonical files unchanged and
completes. -/
def imgsMatching : Store Bytes :=
  [("logo.png".toList, [3]), ("hero_ai.jpg".toList, [4])]

/-- The concrete state for the C7 witness: matching assets plus both shells. -/
def stC7 : St := ⟨imgsMatching, stShells.pages⟩

theorem c7_witness :
    fsGet (provisionAssets false .failure .failure cfgAcme.logoFile cfgAcme.heroFile
      stC7.imgs).1 "logo.png".toList = some [3] ∧
    fsGet (provisionAssets false .failure .failure cfgAcme.logoFile cfgAcme.heroFile
      stC7.imgs).1 "hero_ai.jpg".toList = some [4] ∧
    (okStateOf (runInit cfgAcme false .failure .failure stC7)).map
      (fun s => fsGet s.imgs "logo.png".toList) = some (some [3]) ∧
    (okStateOf (runInit cfgAcme false .failure .failure stC7)).map
      (fun s => fsGet s.imgs "hero_ai.jpg".toList) = some (some [4]) :=
  c7_no_credential_preserves cfgAcme .failure .failure stC7 [3] [4]
    (by decide) (by decide) (by decide)
    (by decide) (Or.inl (by decide)) (by decide) (Or.inl (by decide))
    (by decide) (by decide)

/-- A configuration whose domain contains a placeholder token. -/
def cfgTokenDomain : Config :=
  { domain := "__BRAND__.com".toList, brand := "Acme".toList, topic := "tea".toList,
    speed := "26".toList, subscribeEmail := "e@x.io".toList,
    logoFile := "logo-acme.png".toList, heroFile := "hero-acme.png".toList }

/-- Claim C4, counterexample: with domain `__BRAND__.com`, a file consisting
of the token `__DOMAIN__` still contains the literal `__BRAND__` after the
pass — the `__DOMAIN__` replacement re-introduces it after `__BRAND__` has
already been processed — so "zero remaining tokens for every
brand/domain/topic input" fails. -/
theorem c4_counterexample :
    substFile cfgTokenDomain "__DOMAIN__".toList = "__BRAND__.com".toList ∧
    Occurs "__BRAND__".toList (substFile cfgTokenDomain "__DOMAIN__".toList) :=
  ⟨by decide, by decide⟩

/-- Claim C4 (amended): for every hygienic shell (token segments separated by
nonempty underscore-free literals each containing a character that cannot
occur inside a token) and every configuration whose values contain no
underscore, the substitution pass leaves no placeholder token in the output
file. -/
theorem c4_no_tokens_remain (cfg : Config) (sh : Shell) (hc : CfgClean cfg)
    (hsh : ShellOK sh) :
    ∀ t ∈ tokens16, ¬ Occurs t (substFile cfg (flatten sh)) := by
  intro t ht hocc
  exact substFile_no_underscore hc hsh (occurs_mem hocc (tokens16_underscore t ht))

/-- A small hygienic shell used by the C4 and C8 witnesses. -/
def shellW : Shell :=
  .cons "<h1>".toList "__BRAND__".toList
    (.cons "</h1><p>".toList "__DOMAIN__".toList (.last "</p>".toList))

/-- Claim C4 witness: on a concrete hygienic shell and clean configuration no
`__BRAND__` token survives the pass. -/
theorem c4_witness :
    ¬ Occurs "__BRAND__".toList (substFile cfgAcme (flatten shellW)) :=
  c4_no_tokens_remain cfgAcme shellW (by decide) (by decide) "__BRAND__".toList
    (by decide)

/-- A configuration whose domain contains the legacy string `myugc.studio`. -/
def cfgLegacy : Config :=
  { domain := "xmyugc.studio".toList, brand := "Acme".toList, topic := "tea".toList,
    speed := "26".toList, subscribeEmail := "e@x.io".toList,
    logoFile := "logo-acme.png".toList, heroFile := "hero-acme.png".toList }

/-- Shell files whose home shell still holds the legacy domain string. -/
def stLegacy : St :=
  ⟨[], [(homeShellPath, "myugc.studio".toList), (blogShellPath, "<p>b</p>".toList)]⟩

/-- Claim C8, counterexample: with domain `xmyugc.studio` two sequential runs
with identical arguments are not idempotent — the first run's `index.html`
is `xmyugc.studio`, the second run's is `xxmyugc.studio` (the legacy-domain
replacement fires again inside the first run's output). -/
theorem c8_counterexample :
    (okStateOf (runInit cfgLegacy false .failure .failure stLegacy)).map
      (fun s => fsGet s.pages "index.html".toList) =
      some (some "xmyugc.studio".toList) ∧
    ((okStateOf (runInit cfgLegacy false .failure .failure stLegacy)).bind
      (fun s1 => (okStateOf (runInit cfgLegacy false .failure .failure s1)).map
        (fun s2 => fsGet s2.pages "index.html".toList))) =
      some (some "xxmyugc.studio".toList) ∧
    some (some "xxmyugc.studio".toList) ≠ some (some "xmyugc.studio".toList) :=
  ⟨by decide, by decide, by decide⟩

/-- Claim C8 (amended): on hygienic shells with clean configuration values
the substitution pass is idempotent provided the once-substituted output
contains neither legacy string `web.myugc.studio` nor `myugc.studio`
(automatic when the domain does not contain them): a second pass over the
first pass's output is the identity, so a second run writes byte-identical
shell-derived pages. -/
theorem c8_idempotent (cfg : Config) (sh : Shell) (hc : CfgClean cfg) (hsh : ShellOK sh)
    (hw : occursB "web.myugc.studio".toList (substFile cfg (flatten sh)) = false)
    (hm : occursB "myugc.studio".toList (substFile cfg (flatten sh)) = false) :
    substFile cfg (substFile cfg (flatten sh)) = substFile cfg (flatten sh) := by
  apply substFile_id
  · intro t ht hocc
    exact substFile_no_underscore hc hsh (occurs_mem hocc (tokens16_underscore t ht))
  · intro hocc
    have h1 := occursB_iff.mpr hocc
    rw [hw] at h1
    cases h1
  · intro hocc
    have h1 := occursB_iff.mpr hocc
    rw [hm] at h1
    cases h1

/-- Claim C8 witness: on the concrete hygienic shell the second substitution
pass leaves the first pass's output unchanged. -/
theorem c8_witness :
    substFile cfgAcme (substFile cfgAcme (flatten shellW)) =
      substFile cfgAcme (flatten shellW) :=
  c8_idempotent cfgAcme shellW (by decide) (by decide) (by decide) (by decide)

theorem occurs_suffix (p a : List Char) : Occurs p (a ++ p) := ⟨a, [], by simp⟩

/-- An occurrence in the body of a policy page is an occurrence in the whole
rendered page. -/
theorem occurs_pageShell_body {p b0 b1 b2 ac ah br ti bh : List Char}
    (h : Occurs p bh) : Occurs p (pageShell b0 b1 b2 ac ah br ti bh) := by
  unfold pageShell
  apply occurs_append_right
  apply occurs_append_right
  apply occurs_append_right
  exact occurs_append_left _ h

theorem occurs_domain_privacyBody (d : List Char) : Occurs d (privacyBody d) := by
  unfold privacyBody
  apply occurs_append_right
  apply occurs_append_right
  apply occurs_append_right
  apply occurs_append_right
  apply occurs_append_right
  apply occurs_append_right
  exact occurs_suffix d _

theorem occurs_mailto_privacyBody (d : List Char) :
    Occurs ("mailto:info@".toList ++ d) (privacyBody d) := by
  unfold privacyBody
  apply occurs_append_right
  apply occurs_append_right
  apply occurs_append_right
  rw [List.append_assoc]
  exact occurs_suffix _ _

theorem occurs_domain_termsBody (d : List Char) : Occurs d (termsBody d) := by
  unfold termsBody
  apply occurs_append_right
  apply occurs_append_right
  apply occurs_append_right
  apply occurs_append_right
  apply occurs_append_right
  apply occurs_append_right
  exact occurs_suffix d _

theorem occurs_mailto_termsBody (d : List Char) :
    Occurs ("mailto:info@".toList ++ d) (termsBody d) := by
  unfold termsBody
  apply occurs_append_right
  apply occurs_append_right
  apply occurs_append_right
  rw [List.append_assoc]
  exact occurs_suffix _ _

theorem occurs_domain_refundBody (d : List Char) : Occurs d (refundBody d) := by
  unfold refundBody
  apply occurs_append_right
  apply occurs_append_right
  apply occurs_append_right
  exact occurs_suffix d _

theorem occurs_mailto_refundBody (d : List Char) :
    Occurs ("mailto:info@".toList ++ d) (refundBody d) := by
  unfold refundBody
  apply occurs_append_right
  apply occurs_append_right
  apply occurs_append_right
  rw [List.append_assoc]
  exact occurs_suffix _ _

/-- Claim C9: for domain `example.com` (and brand `Example Co`), the Policy
Page Writer stores the three rendered pages at their canonical nested paths,
and each one contains the literal `example.com` and a
`mailto:info@example.com` link. -/
theorem c9_policy_pages (cfg : Config) (pages : Store (List Char))
    (hdom : cfg.domain = "example.com".toList)
    (_hbrand : cfg.brand = "Example Co".toList) :
    fsGet (writePolicyPages cfg pages) "policy/privacy/index.html".toList =
      some (privacyPageContent cfg) ∧
    fsGet (writePolicyPages cfg pages) "policy/terms/index.html".toList =
      some (termsPageContent cfg) ∧
    fsGet (writePolicyPages cfg pages) "policy/refund/index.html".toList =
      some (refundPageContent cfg) ∧
    (Occurs "example.com".toList (privacyPageContent cfg) ∧
      Occurs "mailto:info@example.com".toList (privacyPageContent cfg)) ∧
    (Occurs "example.com".toList (termsPageContent cfg) ∧
      Occurs "mailto:info@example.com".toList (termsPageContent cfg)) ∧
    (Occurs "example.com".toList (refundPageContent cfg) ∧
      Occurs "mailto:info@example.com".toList (refundPageContent cfg)) := by
  have hne1 : ("policy/refund/index.html".toList : FPath) ≠
      "policy/privacy/index.html".toList := by decide
  have hne2 : ("policy/terms/index.html".toList : FPath) ≠
      "policy/privacy/index.html".toList := by decide
  have hne3 : ("policy/refund/index.html".toList : FPath) ≠
      "policy/terms/index.html".toList := by decide
  have hpat : "mailto:info@example.com".toList =
      "mailto:info@".toList ++ "example.com".toList := by decide
  refine ⟨?_, ?_, ?_, ⟨?_, ?_⟩, ⟨?_, ?_⟩, ⟨?_, ?_⟩⟩
  · simp [writePolicyPages, fsGet_fsSet, hne1, hne2]
  · simp [writePolicyPages, fsGet_fsSet, hne3]
  · simp [writePolicyPages, fsGet_fsSet]
  · unfold privacyPageContent
    rw [hdom]
    exact occurs_pageShell_body (occurs_domain_privacyBody _)
  · unfold privacyPageContent
    rw [hdom, hpat]
    exact occurs_pageShell_body (occurs_mailto_privacyBody _)
  · unfold termsPageContent
    rw [hdom]
    exact occurs_pageShell_body (occurs_domain_termsBody _)
  · unfold termsPageContent
    rw [hdom, hpat]
    exact occurs_pageShell_body (occurs_mailto_termsBody _)
  · unfold refundPageContent
    rw [hdom]
    exact occurs_pageShell_body (occurs_domain_refundBody _)
  · unfold refundPageContent
    rw [hdom, hpat]
    exact occurs_pageShell_body (occurs_mailto_refundBody _)

/-- The concrete configuration of the C9 witness. -/
def cfgExample : Config :=
  { domain := "example.com".toList, brand := "Example Co".toList,
    topic := "tea".toList, speed := "26".toList,
    subscribeEmail := "info@example.com".toList,
    logoFile := "logo-example-co.png".toList, heroFile := "hero-example-co.png".toList }

/-- Claim C9 witness: the policy-page theorem at the concrete configuration
with an empty page store. -/
theorem c9_witness :
    fsGet (writePolicyPages cfgExample []) "policy/privacy/index.html".toList =
      some (privacyPageContent cfgExample) ∧
    fsGet (writePolicyPages cfgExample []) "policy/terms/index.html".toList =
      some (termsPageContent cfgExample) ∧
    fsGet (writePolicyPages cfgExample []) "policy/refund/index.html".toList =
      some (refundPageContent cfgExample) ∧
    (Occurs "example.com".toList (privacyPageContent cfgExample) ∧
      Occurs "mailto:info@example.com".toList (privacyPageContent cfgExample)) ∧
    (Occurs "example.com".toList (termsPageContent cfgExample) ∧
      Occurs "mailto:info@example.com".toList (termsPageContent cfgExample)) ∧
    (Occurs "example.com".toList (refundPageContent cfgExample) ∧
      Occurs "mailto:info@example.com".toList (refundPageContent cfgExample)) :=
  c9_policy_pages cfgExample [] rfl rfl

end Yaswine
